import Mathlib

/-!
# MonaServer2: the asynchronous file engine and `MediaStream`

A shallow embedding of `MonaBase/sources/IOFile.cpp` and of the start/stop logic of
`MonaCore/sources/MediaStream.cpp`.

Every task of the file engine (`Action` and the structures derived from it) runs on a
worker thread, performs at most one blocking call on its `File`, and may queue runners on
the `Handler` (the callback sink) or further tasks on a thread pool.  The embedding makes
these effects explicit:

* `File` holds the fields of `Mona::File` that `IOFile.cpp` reads or writes;
* `Outcome` is what the code outside `IOFile.cpp` (the blocking calls of `File.cpp`,
  the decoder) answers while one task runs;
* `Exec` is the state threaded through `Action::run`: the file, whether the task
  still holds its `shared<File>`, how many other strong references exist, and the
  effects produced so far;
* `Sys` is one resource together with its queues, and `step` runs one atomic event
  (an `IOFile` call, the execution of the next task of a track, the delivery of the
  next runner of the handler, an owner taking or dropping a reference);
* `Watching` is the state of the watch loop, `IOFile.iteration` one turn of the loop of
  `IOFile::run` and `IOFile.run` the whole function;
* `MediaStream` holds the flags of a stream, with `start`, `finalizeStart` and `stop`.
-/

namespace Mona

/-! ## Machine arithmetic -/

/-- Subtraction of `UInt64` values (`-` and `-=`): the result wraps modulo `2^64`. -/
def sub64 (a b : Nat) : Nat := (a % 2 ^ 64 + (2 ^ 64 - b % 2 ^ 64)) % 2 ^ 64

/-- Addition of `UInt64` values (`+=`): the result wraps modulo `2^64`. -/
def add64 (a b : Nat) : Nat := (a + b) % 2 ^ 64

/-- Post-increment target of the `_flushing` counter (`_flushing++`).  The counter is
declared in `File.h`; it is taken as a 32-bit unsigned counter, and only the values
0, 1 and 2 ever occur. -/
def inc32 (a : Nat) : Nat := (a + 1) % 2 ^ 32

/-- Pre-decrement of the `_flushing` counter (`--_flushing`), wrapping like `inc32`. -/
def dec32 (a : Nat) : Nat := (a % 2 ^ 32 + (2 ^ 32 - 1)) % 2 ^ 32

/-! ## Data model -/

/-- Modelled from the spec: the operation modes of a resource (`File::Mode`, declared in
`File.h`), "one of LOAD, READ, WRITE, APPEND, DELETE".  `IOFile.cpp` names
`MODE_WRITE`, `MODE_APPEND` and `MODE_DELETE`. -/
inductive Mode
  | MODE_LOAD
  | MODE_READ
  | MODE_WRITE
  | MODE_APPEND
  | MODE_DELETE
deriving DecidableEq, Repr

/-- Modelled from the spec: the failure detail an `Exception` carries (the exception
classes are declared in `Exception.h`).  `IOFile.cpp` never inspects the detail; the
constructors keep the distinctions the specification draws. -/
inductive Failure
  | absent
  | permission
  | intern
  | system (code : Nat)
deriving DecidableEq, Repr

/-- An `Exception` object: `none` is the cleared state (`ex = nullptr`, `!ex`). -/
abbrev Exception := Option Failure

/-- Bytes of a `Buffer`. -/
abbrev Buffer := List Nat

/-- Bytes of a `Packet` (an immutable view on a buffer). -/
abbrev Packet := List Nat

/-- The fields of `Mona::File` used by `IOFile.cpp`. -/
structure File where
  /-- Field `mode`. -/
  mode : Mode
  /-- Result of `loaded()`. -/
  loaded : Bool
  /-- Result of `size()` (not refreshed), a `UInt64`. -/
  size : Nat
  /-- Result of `readen()`, a `UInt64`. -/
  readen : Nat
  /-- Whether `_pDecoder` is set. -/
  pDecoder : Bool
  /-- Counter `_queueing`, a `UInt64`. -/
  queueing : Nat
  /-- Counter `_flushing`. -/
  flushing : Nat
deriving DecidableEq, Repr

/-- What the code outside `IOFile.cpp` answers while one task runs.  `File.cpp` and the
decoders are not part of the sources, so a blocking call is represented by its result:
the failure it reports (`none` when it succeeds), the bytes a read found, and the state
of the file it leaves.  A decode task uses `decoded` and `pBuffer` instead. -/
structure Outcome where
  /-- The exception set by the blocking call; `none` when the call succeeds. -/
  failure : Exception
  /-- The bytes the file offers to a `read`; the call stores at most the length asked. -/
  data : Buffer
  /-- Result of `loaded()` after the call. -/
  loaded : Bool
  /-- Result of `size()` after the call. -/
  size : Nat
  /-- Result of `readen()` after the call. -/
  readen : Nat
  /-- Value returned by `Decoder::decode` (the number of bytes it wants to read next). -/
  decoded : Nat
  /-- The buffer after `Decoder::decode`: `none` when the decoder has taken it. -/
  pBuffer : Option Buffer
deriving DecidableEq, Repr

/-- The file after a blocking call: the call decides `loaded`, `size` and `readen`, the
fields owned by the engine are untouched. -/
def File.apply (f : File) (o : Outcome) : File :=
  { f with loaded := o.loaded, size := o.size, readen := o.readen }

/-- The runners `IOFile.cpp` queues on the `Handler`. -/
inductive Completion
  /-- Structure `ErrorHandle` of `Action::run`: owns a `shared<File>` and the exception. -/
  | ErrorHandle (ex : Exception)
  /-- Structure `ReadFile::Handle`: weak reference, buffer and end flag. -/
  | ReadHandle (pBuffer : Buffer) (isEnd : Bool)
  /-- Structure `WriteFile::Handle`: weak reference. -/
  | WriteHandle
  /-- Structure `EraseFile::Handle`: weak reference. -/
  | EraseHandle
deriving DecidableEq, Repr

/-- The tasks `IOFile.cpp` queues on a thread pool. -/
inductive Task
  /-- Structure `Action` itself, queued by `IOFile::load` under the name "LoadFile". -/
  | LoadFile
  /-- Structure `ReadFile` with its field `_size`. -/
  | ReadFile (size : Nat)
  /-- Structure `WriteFile` with its field `_packet`. -/
  | WriteFile (packet : Packet)
  /-- Structure `EraseFile`. -/
  | EraseFile
  /-- Structure `Decoding` with its fields `_pBuffer` and `_end`. -/
  | Decoding (pBuffer : Buffer) (isEnd : Bool)
deriving DecidableEq, Repr

/-- The calls a task makes outside `IOFile.cpp`, with their arguments. -/
inductive Op
  | load
  | read (size : Nat)
  | write (data : Packet)
  | erase
  | decode (pBuffer : Buffer) (isEnd : Bool)
deriving DecidableEq, Repr

/-- The callbacks of a `File` invoked on the handler thread. -/
inductive Callback
  | onError (ex : Exception)
  | onReaden (pBuffer : Buffer) (isEnd : Bool)
  | onFlush (deletion : Bool)
deriving DecidableEq, Repr

/-- State threaded through `Action::run`. -/
structure Exec where
  /-- The file `_pFile` points to. -/
  file : File
  /-- Whether `_pFile` is still set (a `Handle` resets it, `ErrorHandle` moves it). -/
  pFile : Bool
  /-- Number of strong references to the file other than `_pFile`. -/
  others : Nat
  /-- The exception object passed to `run`. -/
  ex : Exception
  /-- Calls made outside `IOFile.cpp`, oldest first. -/
  ops : List Op
  /-- Runners queued on the handler, oldest first. -/
  handler : List Completion
  /-- Tasks queued on the thread of the io track, oldest first. -/
  ioTrack : List Task
  /-- Tasks queued on the decoding track, oldest first. -/
  decodingTrack : List Task
deriving DecidableEq, Repr

/-- The state of `Action::run` on entry. -/
def Exec.start (f : File) (others : Nat) : Exec :=
  { file := f, pFile := true, others := others, ex := none,
    ops := [], handler := [], ioTrack := [], decodingTrack := [] }

/-- Test `_pFile.unique()`: the task holds the only strong reference. -/
def Exec.unique (r : Exec) : Bool := r.pFile && r.others == 0

/-! ## `Action` -/

/-- Method `Action::handle<HandleType>`: nothing when `_pFile` is unique ("else useless!");
otherwise the runner is queued on the handler.  A `Handle` keeps a weak reference and
resets `_pFile`; `ErrorHandle` takes `_pFile` over by move, so that the strong
reference lives on in the runner. -/
def Action.handle (c : Completion) (r : Exec) : Exec :=
  if r.unique then r
  else
    match c with
    | Completion.ErrorHandle _ =>
      { r with handler := r.handler ++ [c], pFile := false, others := r.others + 1 }
    | _ => { r with handler := r.handler ++ [c], pFile := false }

/-- Method `Action::process`, the default execution (the load task). -/
def Action.process (r : Exec) (o : Outcome) : Bool × Exec :=
  let r := { r with file := r.file.apply o, ops := r.ops ++ [Op.load], ex := o.failure }
  if o.failure.isNone then (true, r)
  else if r.file.mode != Mode.MODE_DELETE then (false, r)
  else (true, { r with ex := none })

/-- Length of the buffer `ReadFile::process` allocates:
`UInt32(min(available, _size))` with `available = size() - readen()`. -/
def ReadFile.window (f : File) (size : Nat) : Nat :=
  min (sub64 f.size f.readen) size % 2 ^ 32

/-- Method `ReadFile::process`. -/
def ReadFile.process (size : Nat) (r : Exec) (o : Outcome) : Bool × Exec :=
  if r.unique then (true, r)
  else
    let available := sub64 r.file.size r.file.readen
    let length := ReadFile.window r.file size
    -- the blocking read stores at most `length` bytes in the buffer
    let stored := o.data.take length
    let r := { r with file := r.file.apply o, ops := r.ops ++ [Op.read length],
                      ex := o.failure }
    if o.failure.isSome then (false, r)
    else
      let readen := stored.length
      let size := readen % 2 ^ 32
      let pBuffer := stored ++ List.replicate (length - readen) 0
      let pBuffer := if size < pBuffer.length then pBuffer.take readen else pBuffer
      if r.file.pDecoder then
        (true, { r with decodingTrack :=
                          r.decodingTrack ++ [Task.Decoding pBuffer (size == available)],
                        pFile := false, others := r.others + 1 })
      else
        (true, Action.handle (Completion.ReadHandle pBuffer (size == available)) r)

/-- Method `Decoding::process`. -/
def Decoding.process (pBuffer : Buffer) (isEnd : Bool) (r : Exec) (o : Outcome) :
    Bool × Exec :=
  if r.unique then (true, r)
  else
    let r := { r with ops := r.ops ++ [Op.decode pBuffer isEnd] }
    let r := if o.decoded != 0 && !isEnd then
        { r with ioTrack := r.ioTrack ++ [Task.ReadFile o.decoded], others := r.others + 1 }
      else r
    match o.pBuffer with
    | some b => (true, Action.handle (Completion.ReadHandle b isEnd) r)
    | none => (true, r)

/-- Method `WriteFile::process`. -/
def WriteFile.process (packet : Packet) (r : Exec) (o : Outcome) : Bool × Exec :=
  let queueing := sub64 r.file.queueing packet.length
  let r := { r with file := { r.file with queueing := queueing } }
  let r := { r with file := r.file.apply o, ops := r.ops ++ [Op.write packet],
                    ex := o.failure }
  if o.failure.isSome then (false, r)
  else if queueing != 0 then (true, r)
  else if r.file.flushing == 0 then
    (true, Action.handle Completion.WriteHandle
      { r with file := { r.file with flushing := inc32 r.file.flushing } })
  else
    (true, { r with file := { r.file with flushing := dec32 (inc32 r.file.flushing) } })

/-- Method `EraseFile::process`. -/
def EraseFile.process (r : Exec) (o : Outcome) : Bool × Exec :=
  let r := { r with file := r.file.apply o, ops := r.ops ++ [Op.erase], ex := o.failure }
  if o.failure.isSome then (false, r)
  else if r.file.flushing == 0 then
    (true, Action.handle Completion.EraseHandle
      { r with file := { r.file with flushing := inc32 r.file.flushing } })
  else
    (true, { r with file := { r.file with flushing := dec32 (inc32 r.file.flushing) } })

/-- Virtual dispatch of `process`. -/
def Task.process : Task → Exec → Outcome → Bool × Exec
  | Task.LoadFile => Action.process
  | Task.ReadFile size => ReadFile.process size
  | Task.WriteFile packet => WriteFile.process packet
  | Task.EraseFile => EraseFile.process
  | Task.Decoding pBuffer isEnd => Decoding.process pBuffer isEnd

/-- Method `Action::run`: `process`, and when it fails while `_pFile` is still set,
`handle<ErrorHandle>(ex)`. -/
def Action.run (t : Task) (f : File) (others : Nat) (o : Outcome) : Exec :=
  let p := t.process (Exec.start f others) o
  if p.1 || !p.2.pFile then p.2
  else Action.handle (Completion.ErrorHandle p.2.ex) p.2

/-! ## Runners on the handler -/

/-- Method `handle` of `WriteFile::Handle` and of `EraseFile::Handle` (same body). -/
def Handle.flush (f : File) : File × List Callback :=
  let flushing := dec32 f.flushing
  let f := { f with flushing := flushing }
  if flushing == 0 then (f, [Callback.onFlush (!f.loaded)]) else (f, [])

/-- Method `run` of a runner queued by `Action::handle`.  `alive` tells whether
`_weakFile.lock()` succeeds, that is whether a strong reference is left; `ErrorHandle`
owns its reference and always calls `_onError`. -/
def Completion.run (c : Completion) (alive : Bool) (f : File) : File × List Callback :=
  match c with
  | Completion.ErrorHandle ex => (f, [Callback.onError ex])
  | Completion.ReadHandle pBuffer isEnd =>
    if alive then (f, [Callback.onReaden pBuffer isEnd]) else (f, [])
  | Completion.WriteHandle => if alive then Handle.flush f else (f, [])
  | Completion.EraseHandle => if alive then Handle.flush f else (f, [])

/-! ## One resource and its queues -/

/-- One resource of the engine with everything queued for it. -/
structure Sys where
  /-- The file. -/
  file : File
  /-- Number of `shared<File>` held outside the engine (the owners of the resource). -/
  external : Nat
  /-- Tasks queued on the io track (`_ioTrack`), oldest first; each owns a `shared<File>`. -/
  ioTrack : List Task
  /-- Tasks queued on the decoding track (`_decodingTrack`), oldest first. -/
  decodingTrack : List Task
  /-- Runners queued on the handler, oldest first. -/
  handler : List Completion
  /-- Callbacks invoked so far, oldest first. -/
  calls : List Callback
  /-- Calls made outside `IOFile.cpp` so far, oldest first. -/
  ops : List Op
deriving DecidableEq, Repr

/-- Whether a runner owns a strong reference (only `ErrorHandle` does). -/
def Completion.strong : Completion → Bool
  | Completion.ErrorHandle _ => true
  | _ => false

/-- Whether a runner is a flush notification (`WriteFile::Handle`, `EraseFile::Handle`). -/
def Completion.flush : Completion → Bool
  | Completion.WriteHandle => true
  | Completion.EraseHandle => true
  | _ => false

/-- Value of `use_count()` of the file: the owners, the queued tasks and the queued
`ErrorHandle` runners. -/
def Sys.useCount (s : Sys) : Nat :=
  s.external + s.ioTrack.length + s.decodingTrack.length + s.handler.countP Completion.strong

/-- A fresh resource held by `external` owners, nothing queued. -/
def Sys.init (f : File) (external : Nat) : Sys :=
  { file := f, external := external, ioTrack := [], decodingTrack := [], handler := [],
    calls := [], ops := [] }

/-- Function `IOFile::load`. -/
def IOFile.load (s : Sys) : Sys :=
  if s.file.loaded then s else { s with ioTrack := s.ioTrack ++ [Task.LoadFile] }

/-- Function `IOFile::read`. -/
def IOFile.read (s : Sys) (size : Nat) : Sys :=
  { s with ioTrack := s.ioTrack ++ [Task.ReadFile size] }

/-- Function `IOFile::write`; the constructor of `WriteFile` adds the packet size to
`_queueing` on the calling thread. -/
def IOFile.write (s : Sys) (packet : Packet) : Sys :=
  if !packet.isEmpty || !s.file.loaded then
    { s with file := { s.file with queueing := add64 s.file.queueing packet.length },
             ioTrack := s.ioTrack ++ [Task.WriteFile packet] }
  else s

/-- Function `IOFile::erase`. -/
def IOFile.erase (s : Sys) : Sys :=
  { s with ioTrack := s.ioTrack ++ [Task.EraseFile] }

/-- The worker runs task `t`, which has just left its track, then destroys it. -/
def Sys.perform (s : Sys) (t : Task) (o : Outcome) : Sys :=
  let r := Action.run t s.file (s.useCount) o
  { s with file := r.file, ioTrack := s.ioTrack ++ r.ioTrack,
           decodingTrack := s.decodingTrack ++ r.decodingTrack,
           handler := s.handler ++ r.handler, ops := s.ops ++ r.ops }

/-- The atomic events on one resource. -/
inductive Event
  /-- Call of `IOFile::load`. -/
  | load
  /-- Call of `IOFile::read`. -/
  | read (size : Nat)
  /-- Call of `IOFile::write`. -/
  | write (packet : Packet)
  /-- Call of `IOFile::erase`. -/
  | erase
  /-- A worker executes the oldest task of the io track. -/
  | execute (o : Outcome)
  /-- A worker executes the oldest task of the decoding track. -/
  | decode (o : Outcome)
  /-- The handler thread runs its oldest runner. -/
  | deliver
  /-- An owner copies its `shared<File>`. -/
  | acquire
  /-- An owner drops a `shared<File>`. -/
  | release
deriving DecidableEq, Repr

/-- One atomic event. -/
def step (s : Sys) : Event → Sys
  | Event.load => IOFile.load s
  | Event.read size => IOFile.read s size
  | Event.write packet => IOFile.write s packet
  | Event.erase => IOFile.erase s
  | Event.execute o =>
    match s.ioTrack with
    | [] => s
    | t :: rest => Sys.perform { s with ioTrack := rest } t o
  | Event.decode o =>
    match s.decodingTrack with
    | [] => s
    | t :: rest => Sys.perform { s with decodingTrack := rest } t o
  | Event.deliver =>
    match s.handler with
    | [] => s
    | c :: rest =>
      let s := { s with handler := rest }
      let d := c.run (decide (0 < s.useCount + (if c.strong then 1 else 0))) s.file
      { s with file := d.1, calls := s.calls ++ d.2 }
  | Event.acquire => { s with external := s.external + 1 }
  | Event.release => { s with external := s.external - 1 }

/-- The state after a sequence of events. -/
def run (s : Sys) (events : List Event) : Sys := events.foldl step s

/-- The states after each event of a sequence, in order. -/
def trace (s : Sys) : List Event → List Sys
  | [] => []
  | e :: events => step s e :: trace (step s e) events

/-! ## Quantities observed on a resource -/

/-- Bytes a queued task will subtract from `_queueing`: the size of the packet of a write
task, nothing for the other tasks. -/
def Task.bytes : Task → Nat
  | Task.WriteFile packet => packet.length
  | _ => 0

/-- Sum of the sizes of the packets submitted and not yet executed. -/
def pendingBytes (tasks : List Task) : Nat := (tasks.map Task.bytes).sum

/-- Number of flush completions queued on the handler and not yet delivered. -/
def pendingFlush (handler : List Completion) : Nat := handler.countP Completion.flush


/-- The counter `_queueing` agrees, as a `UInt64`, with the bytes of the write tasks
waiting on the io track, and no write task sits on the decoding track. -/
def Sys.queueingOk (s : Sys) : Prop :=
  s.file.queueing = pendingBytes s.ioTrack % 2 ^ 64 ∧ pendingBytes s.decodingTrack = 0

/-- The counter `_flushing` is 0 or 1 and covers the flush completions still queued. -/
def Sys.flushingOk (s : Sys) : Prop :=
  s.file.flushing ≤ 1 ∧ pendingFlush s.handler ≤ s.file.flushing

/-! ## The watch loop (`IOFile::watch`, `IOFile::run`) -/

/-- State of the watch loop.  A watcher is named by a number (the identity of the
`FileWatcher` object); an entry of a list is one `shared<const FileWatcher>`. -/
structure Watching where
  /-- The list `watchers` local to `IOFile::run`: the active set. -/
  watchers : List Nat
  /-- The member `_watchers`, filled by `IOFile::watch` under the mutex: the pending set. -/
  pending : List Nat
  /-- Calls of `FileWatcher::watch` made so far, oldest first. -/
  polled : List Nat
  /-- Watchers whose poll failed and was logged by `AUTO_ERROR`, oldest first. -/
  logged : List Nat
  /-- Whether the loop has called `stop()` on finding no watcher. -/
  stopped : Bool
deriving DecidableEq, Repr

/-- The watch loop before any registration. -/
def Watching.init : Watching :=
  { watchers := [], pending := [], polled := [], logged := [], stopped := false }

/-- Value of `use_count()` of watcher `w`: its `holders w` references outside `IOFile`
plus the entries of the two lists that point to it. -/
def Watching.useCount (holders : Nat → Nat) (entries : List Nat) (w : Nat) : Nat :=
  holders w + entries.count w

/-- Function `IOFile::watch`: the watcher joins `_watchers` (the thread is started). -/
def IOFile.watch (st : Watching) (w : Nat) : Watching :=
  { st with pending := st.pending ++ [w] }

/-- The inner loop of `IOFile::run` over `watchers`: `kept` are the entries already
passed, `w :: todo` the entries from the iterator on.  A unique entry is erased; any
other is polled, a negative result being logged and the exception cleared. -/
def IOFile.poll (holders : Nat → Nat) (result : Nat → Int) (pending : List Nat) :
    List Nat → List Nat → List Nat → List Nat → List Nat × List Nat × List Nat
  | kept, [], polled, logged => (kept, polled, logged)
  | kept, w :: todo, polled, logged =>
    if Watching.useCount holders (kept ++ w :: todo ++ pending) w == 1 then
      IOFile.poll holders result pending kept todo polled logged
    else
      IOFile.poll holders result pending (kept ++ [w]) todo (polled ++ [w])
        (if result w < 0 then logged ++ [w] else logged)

/-- One iteration of the `while(!requestStop)` loop of `IOFile::run`, up to the wait:
the pending set is merged into the active set and cleared; an empty active set stops
the loop; otherwise every entry is examined once.  `holders` gives the references held
outside `IOFile` during the iteration, `result` the value each poll returns. -/
def IOFile.iteration (holders : Nat → Nat) (result : Nat → Int) (st : Watching) : Watching :=
  let watchers := st.watchers ++ st.pending
  if watchers.isEmpty then { st with watchers := [], pending := [], stopped := true }
  else
    let p := IOFile.poll holders result [] [] watchers st.polled st.logged
    { st with watchers := p.1, pending := [], polled := p.2.1, logged := p.2.2 }

/-- The loop after the `while` of `IOFile::run`: false with an `Ex::Intern` exception as
soon as an entry of `watchers` is not unique, true otherwise. -/
def IOFile.check (holders : Nat → Nat) (st : Watching) : Bool × Exception :=
  if st.watchers.all (fun w => Watching.useCount holders (st.watchers ++ st.pending) w == 1)
  then (true, none) else (false, some Failure.intern)

/-- What happens around one iteration of the watch loop. -/
structure Round where
  /-- Watchers registered by `IOFile::watch` before the iteration takes the mutex. -/
  registered : List Nat
  /-- References held outside `IOFile` during the iteration. -/
  holders : Nat → Nat
  /-- Value returned by the poll of each watcher. -/
  result : Nat → Int
  /-- Watchers registered after the merge, during the polls or the wait. -/
  late : List Nat
  /-- Result of `wakeUp.wait`: true when a stop is requested during the wait. -/
  wakeUp : Bool

/-- Function `IOFile::run`.  Each element of the list is one iteration entered with
`requestStop` false; the loop ends when the active set is empty after the merge, when
the wait reports a stop, or, the list exhausted, when `requestStop` is read true.
`atExit` gives the references held outside `IOFile` when the final loop runs. -/
def IOFile.run (atExit : Nat → Nat) : List Round → Watching → (Bool × Exception) × Watching
  | [], st => (IOFile.check atExit st, st)
  | r :: rounds, st =>
    let st := IOFile.iteration r.holders r.result { st with pending := st.pending ++ r.registered }
    if st.stopped then (IOFile.check atExit st, st)
    else
      let st := { st with pending := st.pending ++ r.late }
      if r.wakeUp then (IOFile.check atExit st, st)
      else IOFile.run atExit rounds st

/-! ## `MediaStream` (`MonaCore/sources/MediaStream.cpp`) -/

/-- The hooks a `MediaStream` calls on itself or on its subscribers. -/
inductive MediaStream.Hook
  | onNewTarget
  | starting
  | onStart
  | stopping
  | onStop
deriving DecidableEq, Repr

/-- The fields of `MediaStream` used by `start`, `finalizeStart` and `stop`. -/
structure MediaStream where
  /-- Whether the object is a `Media::Target` (the `dynamic_cast` of `start`). -/
  isTarget : Bool
  /-- Field `_starting`. -/
  starting : Bool
  /-- Field `_running`. -/
  running : Bool
  /-- Field `_startCount`, taken as a 32-bit unsigned counter. -/
  startCount : Nat
  /-- Whether `_pTarget` is set. -/
  pTarget : Bool
  /-- Number of elements of `_targets`. -/
  targets : Nat
  /-- Hooks called so far, oldest first. -/
  hooks : List MediaStream.Hook
deriving DecidableEq, Repr

/-- The constructor: `_starting(false), _running(false), _startCount(0)`. -/
def MediaStream.constructed (isTarget : Bool) : MediaStream :=
  { isTarget := isTarget, starting := false, running := false, startCount := 0,
    pTarget := false, targets := 0, hooks := [] }

/-- Method `MediaStream::stop`. -/
def MediaStream.stop (m : MediaStream) : MediaStream :=
  if !m.running && !m.starting then m
  else
    let m := { m with hooks := m.hooks ++ [MediaStream.Hook.stopping] }
    let m := { m with running := false, targets := 0 }
    if m.starting then { m with starting := false }
    else { m with hooks := m.hooks ++ [MediaStream.Hook.onStop] }

/-- Method `MediaStream::finalizeStart`.  `onStart` is `none` when no `onStart` handler is
subscribed, otherwise the value the handler returns. -/
def MediaStream.finalizeStart (m : MediaStream) (onStart : Option Bool) :
    Bool × MediaStream :=
  if !m.starting then (false, m)
  else
    let m := if !m.running then { m with running := true } else m
    match onStart with
    | some false =>
      (false, MediaStream.stop { m with hooks := m.hooks ++ [MediaStream.Hook.onStart] })
    | some true =>
      (true, { m with hooks := m.hooks ++ [MediaStream.Hook.onStart], starting := false,
                      startCount := (m.startCount + 1) % 2 ^ 32 })
    | none => (true, { m with starting := false, startCount := (m.startCount + 1) % 2 ^ 32 })

/-- Method `MediaStream::start`.  `starting` is the value the virtual `starting(parameters)`
returns, `onStart` as in `finalizeStart`. -/
def MediaStream.start (m : MediaStream) (starting : Bool) (onStart : Option Bool) :
    MediaStream :=
  if m.running && !m.starting then m
  else
    let m := if m.startCount == 0 && !m.running && m.isTarget then
        { m with pTarget := true, hooks := m.hooks ++ [MediaStream.Hook.onNewTarget] }
      else m
    let m := { m with starting := true, hooks := m.hooks ++ [MediaStream.Hook.starting] }
    let m := if starting then (MediaStream.finalizeStart m onStart).2 else m
    if m.starting then { m with running := true } else m

/-- A call made on a `MediaStream` from outside, with the values its hooks return. -/
inductive MediaStream.Call
  | start (starting : Bool) (onStart : Option Bool)
  | finalizeStart (onStart : Option Bool)
  | stop
deriving DecidableEq, Repr

/-- The stream after one call. -/
def MediaStream.call (m : MediaStream) : MediaStream.Call → MediaStream
  | MediaStream.Call.start starting onStart => m.start starting onStart
  | MediaStream.Call.finalizeStart onStart => (m.finalizeStart onStart).2
  | MediaStream.Call.stop => m.stop

/-- The stream after a sequence of calls. -/
def MediaStream.calls (m : MediaStream) (l : List MediaStream.Call) : MediaStream :=
  l.foldl MediaStream.call m

/-- The characters `strpbrk` looks for in `MediaStream::New`: the bytes of the C string
" \t\r\n\v\f". -/
def MediaStream.blanks : List Char :=
  [Char.ofNat 32, Char.ofNat 9, Char.ofNat 13, Char.ofNat 10, Char.ofNat 11, Char.ofNat 12]

/-- Function `strpbrk` of the C library: the offset of the first character of `s` found
in `accept`, `none` (a null pointer) when there is none. -/
def strpbrk (accept : List Char) : List Char → Option Nat
  | [] => none
  | c :: s => if accept.contains c then some 0 else (strpbrk accept s).map (fun i => i + 1)

/-- The second argument `MediaStream::New` passes to `String::Split`,
`params ? (line - params) : string::npos`, for the trimmed `line`: `params` lies `p`
characters after `line`, and the difference `line - params` is converted to the unsigned
type of `string::npos`, taken as 64 bits. -/
def MediaStream.splitSize (line : List Char) : Nat :=
  match strpbrk MediaStream.blanks line with
  | some params => sub64 0 params
  | none => 2 ^ 64 - 1

/-- The type/format word of a trimmed `line`: its characters before the first blank. -/
def MediaStream.word (line : List Char) : List Char :=
  line.takeWhile (fun c => !MediaStream.blanks.contains c)

/-! ## Sample data -/

/-- A file of ten bytes opened for reading, nothing read yet, no decoder. -/
def Sample.file : File :=
  { mode := Mode.MODE_READ, loaded := false, size := 10, readen := 0, pDecoder := false,
    queueing := 0, flushing := 0 }

/-- A blocking call that succeeds, finds `data`, and leaves a loaded file of ten bytes
with read offset `readen`. -/
def Sample.success (data : Buffer) (readen : Nat) : Outcome :=
  { failure := none, data := data, loaded := true, size := 10, readen := readen,
    decoded := 0, pBuffer := none }

/-- A blocking call refused by the system (permission denied). -/
def Sample.denied : Outcome :=
  { failure := some Failure.permission, data := [], loaded := false, size := 10, readen := 0,
    decoded := 0, pBuffer := none }

/-- A load refused because the file does not exist. -/
def Sample.missing : Outcome :=
  { failure := some Failure.absent, data := [], loaded := false, size := 0, readen := 0,
    decoded := 0, pBuffer := none }

/-! # Lemmas -/

/-! ## Arithmetic lemmas -/

theorem sub64_self (a : Nat) : sub64 a a = 0 := by
  unfold sub64
  have h : a % 2 ^ 64 < 2 ^ 64 := Nat.mod_lt _ (by norm_num)
  have e : a % 2 ^ 64 + (2 ^ 64 - a % 2 ^ 64) = 2 ^ 64 := by omega
  rw [e]; norm_num

theorem sub64_of_le {a b : Nat} (hb : b ≤ a) (ha : a < 2 ^ 64) : sub64 a b = a - b := by
  unfold sub64
  have h1 : a % 2 ^ 64 = a := Nat.mod_eq_of_lt ha
  have h2 : b % 2 ^ 64 = b := Nat.mod_eq_of_lt (by omega)
  rw [h1, h2]
  omega

theorem window_lt (f : File) (n : Nat) : ReadFile.window f n < 2 ^ 32 :=
  Nat.mod_lt _ (by norm_num)

theorem window_of_lt (f : File) {n : Nat} (hn : n < 2 ^ 32) :
    ReadFile.window f n = min (sub64 f.size f.readen) n := by
  unfold ReadFile.window
  exact Nat.mod_eq_of_lt (lt_of_le_of_lt (Nat.min_le_right _ _) hn)

/-! ## Execution of one task -/

theorem run_readFile (f : File) (n others : Nat) (o : Outcome) (hown : 0 < others)
    (hdec : f.pDecoder = false) (hok : o.failure = none) :
    Action.run (Task.ReadFile n) f others o =
      { file := f.apply o, pFile := false, others := others, ex := none,
        ops := [Op.read (ReadFile.window f n)],
        handler := [Completion.ReadHandle (o.data.take (ReadFile.window f n))
          (decide ((o.data.take (ReadFile.window f n)).length = sub64 f.size f.readen))],
        ioTrack := [], decodingTrack := [] } := by
  have hne : others ≠ 0 := by omega
  have hlt : (o.data.take (ReadFile.window f n)).length < 2 ^ 32 :=
    lt_of_le_of_lt (List.length_take_le _ _) (window_lt f n)
  have hmod : (o.data.take (ReadFile.window f n)).length % 2 ^ 32
      = (o.data.take (ReadFile.window f n)).length := Nat.mod_eq_of_lt hlt
  have hle : (o.data.take (ReadFile.window f n)).length ≤ ReadFile.window f n :=
    List.length_take_le _ _
  simp only [Action.run, Task.process, ReadFile.process, Exec.start, Exec.unique,
    Action.handle, File.apply, hok, hdec, hmod]
  simp [hne]
  refine ⟨fun h => by simp [h], ?_⟩
  rw [Bool.eq_iff_iff]; simp

theorem run_readFile_ops (f : File) (n others : Nat) (o : Outcome) (hown : others ≠ 0) :
    (Action.run (Task.ReadFile n) f others o).ops = [Op.read (ReadFile.window f n)] := by
  simp only [Action.run, Task.process, ReadFile.process, Exec.start, Exec.unique,
    Action.handle, Bool.true_and, beq_iff_eq, hown, if_false, List.nil_append]
  by_cases hf : o.failure.isSome = true
  · simp [hf, hown]
  · by_cases hd : (f.apply o).pDecoder = true
    · simp [hf, hd]
    · simp only [hf, hd, Bool.false_eq_true, if_false]
      simp [hown]

theorem handle_file (c : Completion) (r : Exec) : (Action.handle c r).file = r.file := by
  unfold Action.handle
  split
  · rfl
  · cases c <;> rfl

theorem handle_handler (c : Completion) (r : Exec) :
    (Action.handle c r).handler = if r.unique then r.handler else r.handler ++ [c] := by
  unfold Action.handle
  split
  · rfl
  · cases c <;> rfl

theorem handle_ioTrack (c : Completion) (r : Exec) :
    (Action.handle c r).ioTrack = r.ioTrack := by
  unfold Action.handle
  split
  · rfl
  · cases c <;> rfl

theorem handle_decodingTrack (c : Completion) (r : Exec) :
    (Action.handle c r).decodingTrack = r.decodingTrack := by
  unfold Action.handle
  split
  · rfl
  · cases c <;> rfl

theorem pendingBytes_nil : pendingBytes [] = 0 := rfl

theorem pendingBytes_cons (t : Task) (ts : List Task) :
    pendingBytes (t :: ts) = t.bytes + pendingBytes ts := by
  simp [pendingBytes]

theorem pendingBytes_append (ts us : List Task) :
    pendingBytes (ts ++ us) = pendingBytes ts + pendingBytes us := by
  simp [pendingBytes]

theorem run_queueing (t : Task) (f : File) (others : Nat) (o : Outcome) :
    (Action.run t f others o).file.queueing
      = (match t with
         | Task.WriteFile packet => sub64 f.queueing packet.length
         | _ => f.queueing) := by
  cases t <;>
    simp only [Action.run, Task.process, Action.process, ReadFile.process, WriteFile.process,
      EraseFile.process, Decoding.process, Exec.start, File.apply] <;>
    (repeat' split) <;> simp only [handle_file]

theorem run_tracks_bytes (t : Task) (f : File) (others : Nat) (o : Outcome) :
    pendingBytes (Action.run t f others o).ioTrack = 0 ∧
    pendingBytes (Action.run t f others o).decodingTrack = 0 := by
  cases t <;>
    simp only [Action.run, Task.process, Action.process, ReadFile.process, WriteFile.process,
      EraseFile.process, Decoding.process, Exec.start, File.apply] <;>
    (repeat' split) <;>
    simp [handle_ioTrack, handle_decodingTrack, pendingBytes, Task.bytes]

theorem flush_file (f : File) :
    (Handle.flush f).1 = { f with flushing := dec32 f.flushing } := by
  simp only [Handle.flush]
  by_cases h : (dec32 f.flushing == 0) = true
  · rw [if_pos h]
  · rw [if_neg h]

theorem completion_run_queueing (c : Completion) (alive : Bool) (f : File) :
    (c.run alive f).1.queueing = f.queueing := by
  cases c <;> cases alive <;>
    simp only [Completion.run, flush_file, if_true, if_false, Bool.false_eq_true]

theorem handle_pendingFlush_le (c : Completion) (r : Exec) :
    pendingFlush (Action.handle c r).handler ≤ pendingFlush r.handler + 1 := by
  rw [handle_handler]
  split
  · omega
  · simp only [pendingFlush, List.countP_append, List.countP_cons, List.countP_nil]
    split <;> omega

theorem handle_pendingFlush_start (c : Completion) (r : Exec) (h : r.handler = []) :
    0 + pendingFlush (Action.handle c r).handler ≤ 1 := by
  have hle := handle_pendingFlush_le c r
  rw [h] at hle
  have hnil : pendingFlush [] = 0 := rfl
  omega

theorem handle_pendingFlush_of_not_flush (c : Completion) (r : Exec) (hc : c.flush = false) :
    pendingFlush (Action.handle c r).handler = pendingFlush r.handler := by
  rw [handle_handler]
  split
  · rfl
  · simp [pendingFlush, List.countP_append, List.countP_cons, hc]

theorem run_flushing (t : Task) (f : File) (others : Nat) (o : Outcome)
    (hf : f.flushing ≤ 1) :
    (Action.run t f others o).file.flushing ≤ 1 ∧
    f.flushing + pendingFlush (Action.run t f others o).handler
      ≤ (Action.run t f others o).file.flushing := by
  have h0 : f.flushing = 0 ∨ f.flushing = 1 := by omega
  have e1 : inc32 0 = 1 := by decide
  have e2 : dec32 (inc32 1) = 1 := by decide
  have hE : ∀ ex, (Completion.ErrorHandle ex).flush = false := fun _ => rfl
  have hR : ∀ b e, (Completion.ReadHandle b e).flush = false := fun _ _ => rfl
  have hnil : pendingFlush [] = 0 := rfl
  cases t with
  | LoadFile =>
    simp only [Action.run, Task.process, Action.process, Exec.start, File.apply]
    repeat' split
    all_goals simp only [handle_file, handle_pendingFlush_of_not_flush _ _ (hE _), hnil]
    all_goals omega
  | ReadFile n =>
    simp only [Action.run, Task.process, ReadFile.process, Exec.start, File.apply]
    repeat' split
    all_goals simp only [handle_file, handle_pendingFlush_of_not_flush _ _ (hE _),
      handle_pendingFlush_of_not_flush _ _ (hR _ _), hnil]
    all_goals omega
  | Decoding b e =>
    simp only [Action.run, Task.process, Decoding.process, Exec.start, File.apply]
    repeat' split
    all_goals simp only [handle_file, handle_pendingFlush_of_not_flush _ _ (hE _),
      handle_pendingFlush_of_not_flush _ _ (hR _ _), hnil]
    all_goals omega
  | WriteFile p =>
    rcases h0 with h0 | h0
    all_goals simp only [Action.run, Task.process, WriteFile.process, Exec.start, File.apply,
      h0, e1, e2]
    all_goals repeat' split
    all_goals simp only [handle_file, handle_pendingFlush_of_not_flush _ _ (hE _), hnil]
    all_goals first
      | omega
      | exact ⟨Nat.le_refl _, handle_pendingFlush_start _ _ rfl⟩
      | simp_all
  | EraseFile =>
    rcases h0 with h0 | h0
    all_goals simp only [Action.run, Task.process, EraseFile.process, Exec.start, File.apply,
      h0, e1, e2]
    all_goals repeat' split
    all_goals simp only [handle_file, handle_pendingFlush_of_not_flush _ _ (hE _), hnil]
    all_goals first
      | omega
      | exact ⟨Nat.le_refl _, handle_pendingFlush_start _ _ rfl⟩
      | simp_all

/-! ## The counter `_queueing` along a sequence of events -/

theorem step_queueingOk (s : Sys) (e : Event) (h : s.queueingOk) : (step s e).queueingOk := by
  obtain ⟨hq, hd⟩ := h
  cases e with
  | load =>
    simp only [step, IOFile.load]
    split
    · exact ⟨hq, hd⟩
    · exact ⟨by simpa [pendingBytes_append, pendingBytes_cons, Task.bytes, pendingBytes_nil]
        using hq, hd⟩
  | read n =>
    exact ⟨by simpa [step, IOFile.read, pendingBytes_append, pendingBytes_cons, Task.bytes,
      pendingBytes_nil] using hq, hd⟩
  | erase =>
    exact ⟨by simpa [step, IOFile.erase, pendingBytes_append, pendingBytes_cons, Task.bytes,
      pendingBytes_nil] using hq, hd⟩
  | write p =>
    simp only [step, IOFile.write]
    split
    · refine ⟨?_, hd⟩
      simp only [pendingBytes_append, pendingBytes_cons, Task.bytes, pendingBytes_nil,
        add64, hq]
      omega
    · exact ⟨hq, hd⟩
  | execute o =>
    simp only [step]
    split
    · exact ⟨hq, hd⟩
    · rename_i t rest hio
      have hb := run_tracks_bytes t s.file (Sys.useCount { s with ioTrack := rest }) o
      rw [hio, pendingBytes_cons] at hq
      refine ⟨?_, ?_⟩
      · simp only [Sys.perform, run_queueing, pendingBytes_append, hb.1]
        cases t <;> simp only [Task.bytes, sub64] at hq ⊢ <;> omega
      · simp only [Sys.perform, pendingBytes_append, hb.2, hd]
  | decode o =>
    simp only [step]
    split
    · exact ⟨hq, hd⟩
    · rename_i t rest hio
      have hb := run_tracks_bytes t s.file (Sys.useCount { s with decodingTrack := rest }) o
      rw [hio, pendingBytes_cons] at hd
      refine ⟨?_, ?_⟩
      · simp only [Sys.perform, run_queueing, pendingBytes_append, hb.1]
        cases t <;> simp only [Task.bytes, sub64] at hq hd ⊢ <;> omega
      · simp only [Sys.perform, pendingBytes_append, hb.2]
        omega
  | deliver =>
    simp only [step]
    split
    · exact ⟨hq, hd⟩
    · exact ⟨by simpa [completion_run_queueing] using hq, hd⟩
  | acquire => exact ⟨hq, hd⟩
  | release => exact ⟨hq, hd⟩

theorem run_queueingOk (events : List Event) (s : Sys) (h : s.queueingOk) :
    (run s events).queueingOk := by
  induction events generalizing s with
  | nil => exact h
  | cons e events ih => exact ih (step s e) (step_queueingOk s e h)

theorem init_queueingOk (f : File) (external : Nat) (hq : f.queueing = 0) :
    (Sys.init f external).queueingOk := by
  constructor
  · simp only [Sys.init, pendingBytes_nil, hq]
    exact (Nat.zero_mod _).symm
  · rfl

theorem pendingBytes_eq_zero (tasks : List Task)
    (h : ∀ p, Task.WriteFile p ∉ tasks) : pendingBytes tasks = 0 := by
  induction tasks with
  | nil => rfl
  | cons t ts ih =>
    rw [pendingBytes_cons, ih (fun p hp => h p (List.mem_cons_of_mem _ hp))]
    cases t with
    | WriteFile q => exact absurd (List.mem_cons_self _ _) (h q)
    | _ => rfl

/-! ## The counter `_flushing` along a sequence of events -/

theorem pendingFlush_cons (c : Completion) (cs : List Completion) :
    pendingFlush (c :: cs) = pendingFlush cs + (if c.flush = true then 1 else 0) := by
  simp only [pendingFlush, List.countP_cons]

theorem pendingFlush_append (cs ds : List Completion) :
    pendingFlush (cs ++ ds) = pendingFlush cs + pendingFlush ds := by
  simp only [pendingFlush, List.countP_append]

theorem dec32_one : dec32 1 = 0 := by decide

theorem flush_of_one (f : File) (h : f.flushing = 1) :
    Handle.flush f = ({ f with flushing := 0 }, [Callback.onFlush (!f.loaded)]) := by
  simp only [Handle.flush, h, dec32_one, beq_self_eq_true, if_true]

theorem deliver_flush (s : Sys) (c : Completion) (rest : List Completion)
    (hh : s.handler = c :: rest) (hc : c.flush = true) (hf : s.file.flushing = 1)
    (halive : 0 < s.useCount) :
    step s Event.deliver
      = { s with file := { s.file with flushing := 0 }, handler := rest,
                 calls := s.calls ++ [Callback.onFlush (!s.file.loaded)] } := by
  have hstrong : c.strong = false := by cases c <;> simp_all [Completion.flush, Completion.strong]
  have hcount : 0 < Sys.useCount { s with handler := rest } := by
    simp only [Sys.useCount, hh, List.countP_cons, hstrong] at halive ⊢
    simpa using halive
  cases c with
  | ErrorHandle ex => simp [Completion.flush] at hc
  | ReadHandle b e => simp [Completion.flush] at hc
  | WriteHandle =>
    simp only [step, hh, Completion.run, Completion.strong, hcount, flush_of_one _ hf,
      Bool.false_eq_true, if_false, Nat.add_zero, decide_True, if_true]
  | EraseHandle =>
    simp only [step, hh, Completion.run, Completion.strong, hcount, flush_of_one _ hf,
      Bool.false_eq_true, if_false, Nat.add_zero, decide_True, if_true]

theorem step_flushingOk (s : Sys) (e : Event) (h : s.flushingOk) : (step s e).flushingOk := by
  obtain ⟨hf, hp⟩ := h
  cases e with
  | load =>
    simp only [step, IOFile.load]
    split <;> exact ⟨hf, hp⟩
  | read n => exact ⟨hf, hp⟩
  | erase => exact ⟨hf, hp⟩
  | write p =>
    simp only [step, IOFile.write]
    split <;> exact ⟨hf, hp⟩
  | execute o =>
    simp only [step]
    split
    · exact ⟨hf, hp⟩
    · rename_i t rest hio
      have hr := run_flushing t s.file (Sys.useCount { s with ioTrack := rest }) o hf
      refine ⟨hr.1, ?_⟩
      simp only [Sys.perform, pendingFlush_append]
      omega
  | decode o =>
    simp only [step]
    split
    · exact ⟨hf, hp⟩
    · rename_i t rest hio
      have hr := run_flushing t s.file (Sys.useCount { s with decodingTrack := rest }) o hf
      refine ⟨hr.1, ?_⟩
      simp only [Sys.perform, pendingFlush_append]
      omega
  | deliver =>
    cases hh : s.handler with
    | nil =>
      have : step s Event.deliver = s := by simp only [step, hh]
      rw [this]; exact ⟨hf, hp⟩
    | cons c rest =>
      rw [hh, pendingFlush_cons] at hp
      by_cases hc : c.flush = true
      · rw [if_pos hc] at hp
        have h1 : s.file.flushing = 1 := by omega
        have h0 : pendingFlush rest = 0 := by omega
        by_cases halive : 0 < s.useCount
        · rw [deliver_flush s c rest hh hc h1 halive]
          exact ⟨by simp, by simp [h0]⟩
        · have hstrong : c.strong = false := by
            cases c <;> simp_all [Completion.flush, Completion.strong]
          have hcount : ¬ 0 < Sys.useCount { s with handler := rest } := by
            simp only [Sys.useCount, hh, List.countP_cons, hstrong] at halive ⊢
            simpa using halive
          have : step s Event.deliver = { s with handler := rest } := by
            cases c with
            | ErrorHandle ex => simp [Completion.flush] at hc
            | ReadHandle b e => simp [Completion.flush] at hc
            | WriteHandle =>
              simp only [step, hh, Completion.run, Completion.strong, hcount,
                Bool.false_eq_true, if_false, Nat.add_zero, decide_False, List.append_nil]
            | EraseHandle =>
              simp only [step, hh, Completion.run, Completion.strong, hcount,
                Bool.false_eq_true, if_false, Nat.add_zero, decide_False, List.append_nil]
          rw [this]
          exact ⟨hf, by simp only [h0]; omega⟩
      · rw [if_neg hc] at hp
        have hfile : (step s Event.deliver).file = s.file ∧
            (step s Event.deliver).handler = rest := by
          cases c with
          | ErrorHandle ex => simp only [step, hh, Completion.run, and_self]
          | ReadHandle b e =>
            simp only [step, hh, Completion.run, Completion.strong, Bool.false_eq_true,
              if_false, and_true]
            split <;> rfl
          | WriteHandle => simp [Completion.flush] at hc
          | EraseHandle => simp [Completion.flush] at hc
        exact ⟨by rw [hfile.1]; exact hf, by rw [hfile.1, hfile.2]; omega⟩
  | acquire => exact ⟨hf, hp⟩
  | release => exact ⟨hf, hp⟩

theorem run_flushingOk (events : List Event) (s : Sys) (h : s.flushingOk) :
    (run s events).flushingOk := by
  induction events generalizing s with
  | nil => exact h
  | cons e events ih => exact ih (step s e) (step_flushingOk s e h)

/-! ## Bursts of writes -/

theorem run_cons (s : Sys) (e : Event) (events : List Event) :
    run s (e :: events) = run (step s e) events := rfl

theorem run_append (s : Sys) (es fs : List Event) :
    run s (es ++ fs) = run (run s es) fs := by
  simp only [run, List.foldl_append]

theorem run_writes (ps : List Packet) (s : Sys) (hq : s.file.queueing < 2 ^ 64)
    (hacc : ∀ p ∈ ps, p ≠ [] ∨ s.file.loaded = false) :
    run s (ps.map Event.write)
      = { s with file := { s.file with
                            queueing := (s.file.queueing + (ps.map List.length).sum) % 2 ^ 64 },
                 ioTrack := s.ioTrack ++ ps.map Task.WriteFile } := by
  induction ps generalizing s with
  | nil =>
    simp only [List.map_nil, List.sum_nil, Nat.add_zero, List.append_nil,
      Nat.mod_eq_of_lt hq]
    rfl
  | cons p ps ih =>
    have hcond : (!p.isEmpty || !s.file.loaded) = true := by
      rcases hacc p (List.mem_cons_self _ _) with h | h
      · cases p with
        | nil => exact absurd rfl h
        | cons a l => rfl
      · simp [h]
    have hstep : step s (Event.write p)
        = { s with file := { s.file with queueing := add64 s.file.queueing p.length },
                   ioTrack := s.ioTrack ++ [Task.WriteFile p] } := by
      simp only [step, IOFile.write, hcond, if_true]
    rw [List.map_cons, run_cons, hstep, ih]
    · simp only [List.map_cons, List.sum_cons, List.append_assoc, List.singleton_append,
        add64]
      congr 2
      omega
    · exact Nat.mod_lt _ (by norm_num)
    · exact fun q hq => hacc q (List.mem_cons_of_mem _ hq)

theorem run_writeFile_more (p : Packet) (f : File) (others : Nat) (o : Outcome)
    (hok : o.failure = none) (hmore : sub64 f.queueing p.length ≠ 0) :
    Action.run (Task.WriteFile p) f others o =
      { file := { f with queueing := sub64 f.queueing p.length, loaded := o.loaded,
                         size := o.size, readen := o.readen },
        pFile := true, others := others, ex := none, ops := [Op.write p], handler := [],
        ioTrack := [], decodingTrack := [] } := by
  simp [Action.run, Task.process, WriteFile.process, Exec.start, File.apply, hok, hmore]

theorem run_writeFile_last (p : Packet) (f : File) (others : Nat) (o : Outcome)
    (hok : o.failure = none) (hzero : sub64 f.queueing p.length = 0)
    (hfl : f.flushing = 0) (hown : others ≠ 0) :
    Action.run (Task.WriteFile p) f others o =
      { file := { f with queueing := 0, flushing := 1, loaded := o.loaded,
                         size := o.size, readen := o.readen },
        pFile := false, others := others, ex := none, ops := [Op.write p],
        handler := [Completion.WriteHandle], ioTrack := [], decodingTrack := [] } := by
  have e1 : inc32 0 = 1 := by decide
  simp [Action.run, Task.process, WriteFile.process, Exec.start, File.apply, hok, hzero,
    hfl, hown, Action.handle, Exec.unique, e1]

theorem sub64_add_left {a b : Nat} (h : a + b < 2 ^ 64) : sub64 (a + b) a = b := by
  unfold sub64
  omega

theorem length_le_sum_of_getLast (ps : List Packet) (l : Packet)
    (h : ps.getLast? = some l) : l.length ≤ (ps.map List.length).sum := by
  induction ps with
  | nil => simp at h
  | cons p ps ih =>
    cases ps with
    | nil =>
      simp only [List.getLast?_singleton, Option.some.injEq] at h
      simp [h]
    | cons q qs =>
      rw [List.getLast?_cons_cons] at h
      have := ih h
      simp only [List.map_cons, List.sum_cons] at this ⊢
      omega

theorem step_write_more (s : Sys) (p : Packet) (rest : List Task) (o : Outcome)
    (hio : s.ioTrack = Task.WriteFile p :: rest) (hok : o.failure = none)
    (hmore : sub64 s.file.queueing p.length ≠ 0) :
    step s (Event.execute o)
      = { s with file := { s.file with queueing := sub64 s.file.queueing p.length,
                                        loaded := o.loaded, size := o.size,
                                        readen := o.readen },
                 ioTrack := rest, ops := s.ops ++ [Op.write p] } := by
  simp only [step, hio, Sys.perform, run_writeFile_more p _ _ o hok hmore, List.append_nil]

theorem step_write_last (s : Sys) (p : Packet) (rest : List Task) (o : Outcome)
    (hio : s.ioTrack = Task.WriteFile p :: rest) (hok : o.failure = none)
    (hzero : sub64 s.file.queueing p.length = 0) (hfl : s.file.flushing = 0)
    (hown : 0 < s.external) :
    step s (Event.execute o)
      = { s with file := { s.file with queueing := 0, flushing := 1, loaded := o.loaded,
                                        size := o.size, readen := o.readen },
                 ioTrack := rest, handler := s.handler ++ [Completion.WriteHandle],
                 ops := s.ops ++ [Op.write p] } := by
  have hne : Sys.useCount { s with ioTrack := rest } ≠ 0 := by
    simp only [Sys.useCount]; omega
  simp only [step, hio, Sys.perform, run_writeFile_last p _ _ o hok hzero hfl hne,
    List.append_nil]

theorem burst_executes (ps : List Packet) (os : List Outcome) (s : Sys)
    (hio : s.ioTrack = ps.map Task.WriteFile)
    (hq : s.file.queueing = (ps.map List.length).sum)
    (hfit : (ps.map List.length).sum < 2 ^ 64)
    (hfl : s.file.flushing = 0) (hown : 0 < s.external)
    (hlen : os.length = ps.length) (hok : ∀ o ∈ os, o.failure = none)
    (hlast : ps.length = 1 ∨ ∃ l, ps.getLast? = some l ∧ l ≠ []) :
    (trace s (os.map Event.execute)).countP (fun t => t.file.queueing == 0) = 1 ∧
    (run s (os.map Event.execute)).handler = s.handler ++ [Completion.WriteHandle] ∧
    (run s (os.map Event.execute)).file.flushing = 1 ∧
    (run s (os.map Event.execute)).external = s.external ∧
    (run s (os.map Event.execute)).calls = s.calls := by
  induction ps generalizing os s with
  | nil =>
    rcases hlast with h | ⟨l, h, _⟩
    · simp at h
    · simp at h
  | cons p rest ih =>
    cases os with
    | nil => simp at hlen
    | cons o os =>
      have ho : o.failure = none := hok o (List.mem_cons_self _ _)
      simp only [List.map_cons, List.sum_cons] at hio hq hfit
      cases rest with
      | nil =>
        have hos : os = [] := by
          cases os with
          | nil => rfl
          | cons a l => simp at hlen
        subst hos
        simp only [List.map_nil, List.sum_nil, Nat.add_zero] at hio hq hfit
        have hzero : sub64 s.file.queueing p.length = 0 := by rw [hq]; exact sub64_self _
        have hstep := step_write_last s p [] o hio ho hzero hfl hown
        simp only [List.map_cons, List.map_nil, trace, run_cons, hstep]
        refine ⟨?_, rfl, rfl, rfl, rfl⟩
        simp [List.countP_cons]
      | cons r rs =>
        have hl : ∃ l, (r :: rs).getLast? = some l ∧ l ≠ [] := by
          rcases hlast with h | ⟨l, h, hne⟩
          · simp at h
          · exact ⟨l, by rwa [List.getLast?_cons_cons] at h, hne⟩
        obtain ⟨l, hlastl, hlne⟩ := hl
        have hpos : 0 < ((r :: rs).map List.length).sum := by
          have := length_le_sum_of_getLast (r :: rs) l hlastl
          have : 0 < l.length := List.length_pos.mpr hlne
          omega
        have hsub : sub64 s.file.queueing p.length = ((r :: rs).map List.length).sum := by
          rw [hq]; exact sub64_add_left hfit
        have hmore : sub64 s.file.queueing p.length ≠ 0 := by omega
        have hstep := step_write_more s p ((r :: rs).map Task.WriteFile) o hio ho hmore
        have hih := ih os
          { s with file := { s.file with queueing := sub64 s.file.queueing p.length,
                                          loaded := o.loaded, size := o.size,
                                          readen := o.readen },
                   ioTrack := (r :: rs).map Task.WriteFile, ops := s.ops ++ [Op.write p] }
          rfl hsub (by omega) hfl hown (by simpa using hlen)
          (fun x hx => hok x (List.mem_cons_of_mem _ hx)) (Or.inr ⟨l, hlastl, hlne⟩)
        simp only [List.map_cons, trace, run_cons]
        rw [hstep]
        refine ⟨?_, hih.2.1, hih.2.2.1, hih.2.2.2.1, hih.2.2.2.2⟩
        rw [List.countP_cons, hih.1]
        simp only [beq_iff_eq, hmore, if_false]

/-! ## Lemmas on the remaining tasks -/

theorem handle_ops (c : Completion) (r : Exec) : (Action.handle c r).ops = r.ops := by
  unfold Action.handle
  split
  · rfl
  · cases c <;> rfl

theorem run_writeFile_failed (p : Packet) (f : File) (others : Nat) (o : Outcome)
    (hfail : o.failure ≠ none) :
    Action.run (Task.WriteFile p) f others o =
      Action.handle (Completion.ErrorHandle o.failure)
        { file := { f with queueing := sub64 f.queueing p.length, loaded := o.loaded,
                           size := o.size, readen := o.readen },
          pFile := true, others := others, ex := o.failure, ops := [Op.write p],
          handler := [], ioTrack := [], decodingTrack := [] } := by
  have hs : o.failure.isSome = true := Option.isSome_iff_ne_none.mpr hfail
  simp [Action.run, Task.process, WriteFile.process, Exec.start, File.apply, hs]

theorem run_decoding (b : Buffer) (e : Bool) (f : File) (others : Nat) (o : Outcome)
    (hown : 0 < others) :
    Action.run (Task.Decoding b e) f others o =
      { file := f, pFile := o.pBuffer.isNone,
        others := if o.decoded ≠ 0 ∧ e = false then others + 1 else others,
        ex := none, ops := [Op.decode b e],
        handler := (match o.pBuffer with
                    | some pending => [Completion.ReadHandle pending e]
                    | none => []),
        ioTrack := if o.decoded ≠ 0 ∧ e = false then [Task.ReadFile o.decoded] else [],
        decodingTrack := [] } := by
  have hne : others ≠ 0 := by omega
  cases hp : o.pBuffer <;> cases e <;> by_cases hd : o.decoded = 0 <;>
    simp [Action.run, Task.process, Decoding.process, Exec.start, Exec.unique, Action.handle,
      hne, hp, hd]

theorem run_nil (s : Sys) : run s [] = s := rfl

theorem run_loadFile_delete (f : File) (others : Nat) (o : Outcome)
    (hmode : f.mode = Mode.MODE_DELETE) :
    Action.run Task.LoadFile f others o =
      { file := f.apply o, pFile := true, others := others, ex := none, ops := [Op.load],
        handler := [], ioTrack := [], decodingTrack := [] } := by
  cases hf : o.failure <;>
    simp [Action.run, Task.process, Action.process, Exec.start, File.apply, hmode, hf]

theorem run_eraseFile_ok (f : File) (others : Nat) (o : Outcome)
    (hok : o.failure = none) (hfl : f.flushing = 0) (hown : others ≠ 0) :
    Action.run Task.EraseFile f others o =
      { file := { f with flushing := 1, loaded := o.loaded, size := o.size,
                         readen := o.readen },
        pFile := false, others := others, ex := none, ops := [Op.erase],
        handler := [Completion.EraseHandle], ioTrack := [], decodingTrack := [] } := by
  have e1 : inc32 0 = 1 := by decide
  simp [Action.run, Task.process, EraseFile.process, Exec.start, File.apply, hok, hfl, hown,
    Action.handle, Exec.unique, e1]

theorem step_loadFile_delete (s : Sys) (rest : List Task) (o : Outcome)
    (hio : s.ioTrack = Task.LoadFile :: rest) (hmode : s.file.mode = Mode.MODE_DELETE) :
    step s (Event.execute o)
      = { s with file := s.file.apply o, ioTrack := rest, ops := s.ops ++ [Op.load] } := by
  simp only [step, hio, Sys.perform, run_loadFile_delete _ _ o hmode, List.append_nil]

theorem step_eraseFile_ok (s : Sys) (rest : List Task) (o : Outcome)
    (hio : s.ioTrack = Task.EraseFile :: rest) (hok : o.failure = none)
    (hfl : s.file.flushing = 0) (hown : 0 < s.external) :
    step s (Event.execute o)
      = { s with file := { s.file with flushing := 1, loaded := o.loaded, size := o.size,
                                        readen := o.readen },
                 ioTrack := rest, handler := s.handler ++ [Completion.EraseHandle],
                 ops := s.ops ++ [Op.erase] } := by
  have hne : Sys.useCount { s with ioTrack := rest } ≠ 0 := by
    simp only [Sys.useCount]; omega
  simp only [step, hio, Sys.perform, run_eraseFile_ok _ _ o hok hfl hne, List.append_nil]

theorem run_readFile_decoder (f : File) (n others : Nat) (o : Outcome) (hown : 0 < others)
    (hdec : f.pDecoder = true) (hok : o.failure = none) :
    Action.run (Task.ReadFile n) f others o =
      { file := f.apply o, pFile := false, others := others + 1, ex := none,
        ops := [Op.read (ReadFile.window f n)],
        handler := [], ioTrack := [],
        decodingTrack := [Task.Decoding (o.data.take (ReadFile.window f n))
          (decide ((o.data.take (ReadFile.window f n)).length = sub64 f.size f.readen))] } := by
  have hne : others ≠ 0 := by omega
  have hlt : (o.data.take (ReadFile.window f n)).length < 2 ^ 32 :=
    lt_of_le_of_lt (List.length_take_le _ _) (window_lt f n)
  have hmod : (o.data.take (ReadFile.window f n)).length % 2 ^ 32
      = (o.data.take (ReadFile.window f n)).length := Nat.mod_eq_of_lt hlt
  simp only [Action.run, Task.process, ReadFile.process, Exec.start, Exec.unique,
    File.apply, hok, hdec, hmod]
  simp [hne]
  refine ⟨fun h => by simp [h], ?_⟩
  rw [Bool.eq_iff_iff]; simp

theorem step_readFile_decoder (s : Sys) (n : Nat) (rest : List Task) (o : Outcome)
    (hio : s.ioTrack = Task.ReadFile n :: rest) (hdec : s.file.pDecoder = true)
    (hown : 0 < s.external) (hok : o.failure = none) :
    step s (Event.execute o)
      = { s with file := s.file.apply o, ioTrack := rest,
                 decodingTrack := s.decodingTrack ++
                   [Task.Decoding (o.data.take (ReadFile.window s.file n))
                     (decide ((o.data.take (ReadFile.window s.file n)).length
                       = sub64 s.file.size s.file.readen))],
                 ops := s.ops ++ [Op.read (ReadFile.window s.file n)] } := by
  have hne : 0 < Sys.useCount { s with ioTrack := rest } := by
    simp only [Sys.useCount]; omega
  simp only [step, hio, Sys.perform, run_readFile_decoder _ n _ o hne hdec hok,
    List.append_nil]

theorem step_decoding (s : Sys) (b : Buffer) (e : Bool) (rest : List Task) (d : Outcome)
    (hdt : s.decodingTrack = Task.Decoding b e :: rest) (hown : 0 < s.external) :
    step s (Event.decode d)
      = { s with ioTrack := s.ioTrack ++
                   (if d.decoded ≠ 0 ∧ e = false then [Task.ReadFile d.decoded] else []),
                 decodingTrack := rest,
                 handler := s.handler ++ (match d.pBuffer with
                    | some pending => [Completion.ReadHandle pending e]
                    | none => []),
                 ops := s.ops ++ [Op.decode b e] } := by
  have hne : 0 < Sys.useCount { s with decodingTrack := rest } := by
    simp only [Sys.useCount]; omega
  simp only [step, hdt, Sys.perform, run_decoding b e _ _ d hne, List.append_nil]

/-! ## The watch loop -/

theorem poll_nodup (holders : Nat → Nat) (result : Nat → Int)
    (todo kept polled logged : List Nat) (hnd : (kept ++ todo).Nodup) :
    IOFile.poll holders result [] kept todo polled logged
      = (kept ++ todo.filter (fun w => holders w != 0),
         polled ++ todo.filter (fun w => holders w != 0),
         logged ++ (todo.filter (fun w => holders w != 0)).filter (fun w => result w < 0)) := by
  induction todo generalizing kept polled logged with
  | nil => simp [IOFile.poll]
  | cons w todo ih =>
    have hcount : (kept ++ w :: todo ++ []).count w = 1 := by
      rw [List.append_nil]
      exact List.count_eq_one_of_mem hnd (by simp)
    have hnd2 : ((kept ++ [w]) ++ todo).Nodup := by simpa using hnd
    have hnd3 : (kept ++ todo).Nodup := by
      rw [List.nodup_append] at hnd ⊢
      exact ⟨hnd.1, (List.nodup_cons.mp hnd.2.1).2,
        fun a ha hb => hnd.2.2 ha (List.mem_cons_of_mem _ hb)⟩
    unfold IOFile.poll
    simp only [Watching.useCount, hcount]
    by_cases hh : holders w = 0
    · simp only [hh, Nat.zero_add, beq_self_eq_true, if_true]
      rw [ih kept polled logged hnd3]
      simp [hh]
    · have hne : (holders w + 1 == 1) = false := by
        simp only [beq_eq_false_iff_ne, ne_eq, Nat.add_left_eq_self]
        exact hh
      simp only [hne, Bool.false_eq_true, if_false]
      rw [ih _ _ _ hnd2]
      by_cases hr : result w < 0 <;> simp [hh, hr, List.filter_cons]

theorem iteration_nodup (holders : Nat → Nat) (result : Nat → Int) (st : Watching)
    (hne : st.watchers ++ st.pending ≠ []) (hnd : (st.watchers ++ st.pending).Nodup) :
    IOFile.iteration holders result st
      = { st with
          watchers := (st.watchers ++ st.pending).filter (fun w => holders w != 0),
          pending := [],
          polled := st.polled ++ (st.watchers ++ st.pending).filter (fun w => holders w != 0),
          logged := st.logged ++
            ((st.watchers ++ st.pending).filter (fun w => holders w != 0)).filter
              (fun w => result w < 0) } := by
  have hemp : (st.watchers ++ st.pending).isEmpty = false := by
    cases h : st.watchers ++ st.pending with
    | nil => exact absurd h hne
    | cons a l => rfl
  simp only [IOFile.iteration, hemp, Bool.false_eq_true, if_false]
  rw [poll_nodup holders result _ [] _ _ (by simpa using hnd)]
  simp

theorem run_check (atExit : Nat → Nat) (rounds : List Round) (st : Watching) :
    (IOFile.run atExit rounds st).1 = IOFile.check atExit (IOFile.run atExit rounds st).2 := by
  induction rounds generalizing st with
  | nil => rfl
  | cons r rounds ih =>
    unfold IOFile.run
    simp only
    split
    · rfl
    · split
      · rfl
      · exact ih _

theorem check_false_iff (holders : Nat → Nat) (st : Watching) :
    (IOFile.check holders st).1 = false
      ↔ ∃ w ∈ st.watchers, Watching.useCount holders (st.watchers ++ st.pending) w ≠ 1 := by
  unfold IOFile.check
  split
  · rename_i h
    simp only [List.all_eq_true, beq_iff_eq] at h
    simp only [Bool.true_eq_false, false_iff, not_exists, not_and, not_not]
    exact h
  · rename_i h
    simp only [List.all_eq_true, beq_iff_eq, not_forall] at h
    simp only [true_iff]
    obtain ⟨w, hw, hne⟩ := h
    exact ⟨w, hw, hne⟩

theorem check_exception (holders : Nat → Nat) (st : Watching) :
    (IOFile.check holders st).2
      = if (IOFile.check holders st).1 then none else some Failure.intern := by
  unfold IOFile.check
  split <;> rfl

/-! ## `MediaStream` -/

theorem stop_flags (m : MediaStream) : m.stop.starting = false ∧ m.stop.running = false := by
  obtain ⟨t, st, ru, sc, pt, tg, hk⟩ := m
  cases st <;> cases ru <;> simp [MediaStream.stop]

theorem finalizeStart_flags (m : MediaStream) (onStart : Option Bool)
    (h : m.starting = true → m.running = true) :
    (m.finalizeStart onStart).2.starting = true → (m.finalizeStart onStart).2.running = true := by
  obtain ⟨t, st, ru, sc, pt, tg, hk⟩ := m
  cases st <;> cases ru <;> rcases onStart with _ | _ | _ <;>
    simp_all [MediaStream.finalizeStart, MediaStream.stop]

theorem start_flags (m : MediaStream) (starting : Bool) (onStart : Option Bool) :
    (m.start starting onStart).starting = true → (m.start starting onStart).running = true := by
  obtain ⟨t, st, ru, sc, pt, tg, hk⟩ := m
  cases st <;> cases ru <;> cases starting <;> cases t <;> rcases onStart with _ | _ | _ <;>
    by_cases h0 : sc = 0 <;>
    simp [MediaStream.start, MediaStream.finalizeStart, MediaStream.stop, h0]

theorem call_flags (m : MediaStream) (c : MediaStream.Call)
    (h : m.starting = true → m.running = true) :
    (m.call c).starting = true → (m.call c).running = true := by
  cases c with
  | start starting onStart => exact start_flags m starting onStart
  | finalizeStart onStart => exact finalizeStart_flags m onStart h
  | stop =>
    intro hs
    have hf : (m.call MediaStream.Call.stop).starting = false := (stop_flags m).1
    rw [hf] at hs
    exact absurd hs (by decide)

theorem calls_flags (l : List MediaStream.Call) (m : MediaStream)
    (h : m.starting = true → m.running = true) :
    (m.calls l).starting = true → (m.calls l).running = true := by
  induction l generalizing m with
  | nil => exact h
  | cons c l ih => exact ih (m.call c) (call_flags m c h)

theorem splitSize_of_blank (line : List Char) (p : Nat)
    (h : strpbrk MediaStream.blanks line = some p) (h0 : 0 < p) (hp : p < 2 ^ 63) :
    MediaStream.splitSize line = 2 ^ 64 - p ∧ MediaStream.splitSize line ≠ p := by
  have e : MediaStream.splitSize line = 2 ^ 64 - p := by
    simp only [MediaStream.splitSize, h, sub64]
    omega
  exact ⟨e, by rw [e]; omega⟩

/-! ## The watch loop with any entries -/

theorem poll_entries (holders : Nat → Nat) (result : Nat → Int)
    (todo kept polled logged : List Nat) :
    IOFile.poll holders result [] kept todo polled logged
      = (kept ++ todo.filter (fun w => holders w + (kept ++ todo).count w != 1),
         polled ++ todo.filter (fun w => holders w + (kept ++ todo).count w != 1),
         logged ++ (todo.filter (fun w => holders w + (kept ++ todo).count w != 1)).filter
           (fun w => result w < 0)) := by
  induction todo generalizing kept polled logged with
  | nil => simp [IOFile.poll]
  | cons w todo ih =>
    unfold IOFile.poll
    simp only [Watching.useCount, List.append_nil]
    by_cases hu : holders w + (kept ++ w :: todo).count w = 1
    · have hpos : 0 < (kept ++ w :: todo).count w :=
        List.count_pos_iff.mpr (by simp)
      have hc1 : (kept ++ w :: todo).count w = 1 := by omega
      have hc : kept.count w + todo.count w = 0 := by
        simp only [List.count_append, List.count_cons_self] at hc1
        omega
      have hwt : w ∉ todo := fun h => by
        have := List.count_pos_iff.mpr h
        omega
      have hcongr : todo.filter (fun x => holders x + (kept ++ w :: todo).count x != 1)
          = todo.filter (fun x => holders x + (kept ++ todo).count x != 1) := by
        apply List.filter_congr
        intro x hx
        have hxw : x ≠ w := fun h => hwt (h ▸ hx)
        simp only [List.count_append, List.count_cons, beq_iff_eq, hxw.symm, if_false,
          Nat.add_zero]
      simp only [hu, beq_self_eq_true, if_true]
      rw [ih kept polled logged]
      have hpw : (holders w + (kept ++ w :: todo).count w != 1) = false := by
        rw [hu]; rfl
      rw [List.filter_cons, hpw, hcongr]
      simp
    · have hne : (holders w + (kept ++ w :: todo).count w == 1) = false := by
        simp only [beq_eq_false_iff_ne, ne_eq]; exact hu
      have hpw : (holders w + (kept ++ w :: todo).count w != 1) = true :=
        bne_iff_ne.mpr hu
      simp only [hne, Bool.false_eq_true, if_false]
      rw [ih (kept ++ [w]) _ _]
      have hl : kept ++ [w] ++ todo = kept ++ w :: todo := by simp
      rw [hl, List.filter_cons, hpw]
      by_cases hr : result w < 0 <;> simp [hr, List.filter_cons]

theorem iteration_entries (holders : Nat → Nat) (result : Nat → Int) (st : Watching)
    (hne : st.watchers ++ st.pending ≠ []) :
    IOFile.iteration holders result st
      = { st with
          watchers := (st.watchers ++ st.pending).filter
            (fun w => holders w + (st.watchers ++ st.pending).count w != 1),
          pending := [],
          polled := st.polled ++ (st.watchers ++ st.pending).filter
            (fun w => holders w + (st.watchers ++ st.pending).count w != 1),
          logged := st.logged ++
            ((st.watchers ++ st.pending).filter
              (fun w => holders w + (st.watchers ++ st.pending).count w != 1)).filter
              (fun w => result w < 0) } := by
  have hemp : (st.watchers ++ st.pending).isEmpty = false := by
    cases h : st.watchers ++ st.pending with
    | nil => exact absurd h hne
    | cons a l => rfl
  simp only [IOFile.iteration, hemp, Bool.false_eq_true, if_false]
  rw [poll_entries holders result _ [] _ _]
  simp

theorem filter_held_of_nodup (holders : Nat → Nat) (l : List Nat) (hnd : l.Nodup) :
    l.filter (fun w => holders w + l.count w != 1) = l.filter (fun w => holders w != 0) := by
  apply List.filter_congr
  intro x hx
  rw [List.count_eq_one_of_mem hnd hx]
  by_cases h : holders x = 0 <;> simp [h]

theorem check_false_iff_held (holders : Nat → Nat) (st : Watching) :
    (IOFile.check holders st).1 = false
      ↔ ∃ w ∈ st.watchers, holders w ≠ 0 ∨ 2 ≤ (st.watchers ++ st.pending).count w := by
  rw [check_false_iff]
  constructor
  · rintro ⟨w, hw, hne⟩
    refine ⟨w, hw, ?_⟩
    have hpos : 0 < (st.watchers ++ st.pending).count w :=
      List.count_pos_iff.mpr (List.mem_append_left _ hw)
    simp only [Watching.useCount] at hne
    omega
  · rintro ⟨w, hw, h⟩
    refine ⟨w, hw, ?_⟩
    have hpos : 0 < (st.watchers ++ st.pending).count w :=
      List.count_pos_iff.mpr (List.mem_append_left _ hw)
    simp only [Watching.useCount]
    omega

/-! # The claims -/

/-! ## C1: the error path of `Action::run` -/

/-- C1, as stated, fails: an owner queues a write of one byte and drops its reference;
the write task then holds the only reference, its blocking write is refused, and
`Action::run` queues nothing on the handler, so that `onError` is never called although
the process step failed. -/
theorem C1_counterexample :
    (run (Sys.init Sample.file 1) [Event.write [1], Event.release]).useCount = 1 ∧
    ((Task.WriteFile [1]).process
      (Exec.start (run (Sys.init Sample.file 1) [Event.write [1], Event.release]).file 0)
      Sample.denied).1 = false ∧
    (run (Sys.init Sample.file 1)
      [Event.write [1], Event.release, Event.execute Sample.denied]).handler = [] ∧
    (run (Sys.init Sample.file 1)
      [Event.write [1], Event.release, Event.execute Sample.denied, Event.deliver]).calls
      = [] := by
  decide

/-- C1 (amended): for every task whose process step fails, the blocking call has reported
a failure, and `Action::run` queues exactly one error completion carrying that failure
when another strong reference to the resource exists, and nothing when the failing task
holds the only reference; an error completion, once queued, calls `onError` exactly once
with the failure, whether or not any other reference is left at delivery. -/
theorem C1_error_completion (t : Task) (f : File) (others : Nat) (o : Outcome)
    (hfail : (t.process (Exec.start f others) o).1 = false) :
    o.failure ≠ none ∧
    (Action.run t f others o).handler =
      (if others = 0 then [] else [Completion.ErrorHandle o.failure]) ∧
    ∀ (alive : Bool) (g : File),
      (Completion.ErrorHandle o.failure).run alive g = (g, [Callback.onError o.failure]) := by
  refine ⟨?_, ?_, fun _ _ => rfl⟩
  · intro hnone
    cases t <;>
      simp [Task.process, Action.process, ReadFile.process, WriteFile.process,
        EraseFile.process, Decoding.process, Exec.start, hnone] at hfail <;>
      (repeat' split at hfail) <;> simp_all
  · cases t <;>
      simp only [Task.process, Action.process, ReadFile.process, WriteFile.process,
        EraseFile.process, Decoding.process, Exec.start, Action.run] at hfail ⊢ <;>
      (repeat' split at hfail) <;> simp_all [Action.handle, Exec.unique] <;>
      split <;> rfl

/-- Witness of `C1_error_completion`: an erase refused on a resource that has another
reference. -/
theorem C1_error_completion_witness :
    (Task.EraseFile.process (Exec.start Sample.file 1) Sample.denied).1 = false ∧
    (Sample.denied.failure ≠ none ∧
      (Action.run Task.EraseFile Sample.file 1 Sample.denied).handler =
        (if 1 = 0 then [] else [Completion.ErrorHandle Sample.denied.failure]) ∧
      ∀ (alive : Bool) (g : File),
        (Completion.ErrorHandle Sample.denied.failure).run alive g =
          (g, [Callback.onError Sample.denied.failure])) :=
  ⟨by decide, C1_error_completion Task.EraseFile Sample.file 1 Sample.denied (by decide)⟩

/-! ## C2: the counter `_queueing` -/

/-- C2: start from a resource with `_queueing = 0` and nothing queued, and let `s` be the
state after any sequence of events (write submissions and in-order executions, and any
other event of the engine as well).  Then `_queueing` is the sum of the sizes of the
packets submitted and not yet executed, as a `UInt64`, and exactly that sum as long as it
fits the 64-bit counter; it is 0 once no submitted write is left to execute.  A further
submission adds the packet size at the moment the task is queued; the execution of the
oldest write subtracts exactly the size of its packet, which the counter covers (no
underflow), and leaves the sum of the packets still waiting. -/
theorem C2_queueing_counter (f : File) (external : Nat) (events : List Event) (s : Sys)
    (hq : f.queueing = 0) (hs : s = run (Sys.init f external) events) :
    s.file.queueing = pendingBytes s.ioTrack % 2 ^ 64 ∧
    ((∀ p, Task.WriteFile p ∉ s.ioTrack) → s.file.queueing = 0) ∧
    (pendingBytes s.ioTrack < 2 ^ 64 → s.file.queueing = pendingBytes s.ioTrack) ∧
    (∀ p, pendingBytes s.ioTrack + p.length < 2 ^ 64 →
      (step s (Event.write p)).file.queueing = s.file.queueing + p.length ∧
      (step s (Event.write p)).file.queueing
        = pendingBytes (step s (Event.write p)).ioTrack) ∧
    (∀ p rest o, s.ioTrack = Task.WriteFile p :: rest → pendingBytes s.ioTrack < 2 ^ 64 →
      p.length ≤ s.file.queueing ∧
      (step s (Event.execute o)).file.queueing = s.file.queueing - p.length ∧
      (step s (Event.execute o)).file.queueing
        = pendingBytes (step s (Event.execute o)).ioTrack) := by
  have hok : s.queueingOk := hs ▸ run_queueingOk events _ (init_queueingOk f external hq)
  have hinv := hok.1
  refine ⟨hinv, ?_, ?_, ?_, ?_⟩
  · intro hnone
    rw [hinv, pendingBytes_eq_zero _ hnone]
    exact Nat.zero_mod _
  · intro hfit
    rw [hinv, Nat.mod_eq_of_lt hfit]
  · intro p hfit
    have hw := (step_queueingOk s (Event.write p) hok).1
    have hsum : pendingBytes (step s (Event.write p)).ioTrack
        = pendingBytes s.ioTrack + p.length := by
      simp only [step, IOFile.write]
      split
      · simp only [pendingBytes_append, pendingBytes_cons, pendingBytes_nil, Task.bytes]
        omega
      · rename_i hcond
        have hp : p.length = 0 := by
          cases p with
          | nil => rfl
          | cons a l => simp at hcond
        omega
    rw [hw, hsum, Nat.mod_eq_of_lt hfit, hinv]
    have : pendingBytes s.ioTrack < 2 ^ 64 := by omega
    rw [Nat.mod_eq_of_lt this]
    exact ⟨rfl, rfl⟩
  · intro p rest o hio hfit
    have he := (step_queueingOk s (Event.execute o) hok).1
    have hsum : pendingBytes (step s (Event.execute o)).ioTrack = pendingBytes rest := by
      have hb := run_tracks_bytes (Task.WriteFile p) s.file
        (Sys.useCount { s with ioTrack := rest }) o
      simp only [step, hio, Sys.perform, pendingBytes_append, hb.1]
      omega
    rw [hio, pendingBytes_cons] at hfit
    simp only [Task.bytes] at hfit
    have hcur : s.file.queueing = p.length + pendingBytes rest := by
      rw [hinv, hio, pendingBytes_cons]
      simp only [Task.bytes]
      exact Nat.mod_eq_of_lt hfit
    have hrest : pendingBytes rest < 2 ^ 64 := by omega
    rw [he, hsum, Nat.mod_eq_of_lt hrest, hcur]
    exact ⟨by omega, by omega, rfl⟩

/-- Witness of `C2_queueing_counter`: packets of 2 and 3 bytes are submitted, the first
is written, a third packet of 1 byte is submitted. -/
theorem C2_queueing_counter_witness :
    Sample.file.queueing = 0 ∧
    (run (Sys.init Sample.file 1)
      [Event.write [7, 7], Event.write [8, 8, 8], Event.execute (Sample.success [] 0),
       Event.write [9]]).file.queueing = 4 :=
  ⟨rfl,
    ((C2_queueing_counter Sample.file 1
      [Event.write [7, 7], Event.write [8, 8, 8], Event.execute (Sample.success [] 0),
       Event.write [9]] _ rfl rfl).2.2.1 (by decide)).trans (by decide)⟩

/-! ## C3: one flush notification per burst of writes -/

/-- C3, as stated, fails: a packet of one byte and an empty packet are written to a file
not yet loaded (both accepted, both submitted before the first executes, `_queueing` is 1
when the executions start).  The first execution brings `_queueing` to zero and the
second leaves it at zero, so two of the two executions leave the counter at zero; and
when they run back to back only one flush notification fires, the second being absorbed
by the `_flushing` guard. -/
theorem C3_counterexample :
    (run (Sys.init Sample.file 1) [Event.write [7], Event.write []]).ioTrack
      = [Task.WriteFile [7], Task.WriteFile []] ∧
    (run (Sys.init Sample.file 1) [Event.write [7], Event.write []]).file.queueing = 1 ∧
    (trace (run (Sys.init Sample.file 1) [Event.write [7], Event.write []])
      [Event.execute (Sample.success [] 0), Event.execute (Sample.success [] 0)]).countP
        (fun t => t.file.queueing == 0) = 2 ∧
    (run (Sys.init Sample.file 1)
      [Event.write [7], Event.write [],
       Event.execute (Sample.success [] 0), Event.execute (Sample.success [] 0),
       Event.deliver, Event.deliver]).calls = [Callback.onFlush false] := by
  decide

/-- C3 (amended): take a burst of n >= 1 writes on a resource held by an owner, all
submitted before the first executes, every packet accepted by `IOFile::write`, every
blocking write succeeding, `_queueing` and `_flushing` initially 0, the sizes summing to
less than 2^64, and the last packet non-empty unless n = 1.  Executed in submission
order, exactly one of the n executions leaves `_queueing` at zero; the executions queue
exactly one flush completion, and its delivery is the one call of `onFlush`. -/
theorem C3_write_burst (f : File) (external : Nat) (packets : List Packet)
    (outcomes : List Outcome) (hown : 0 < external) (hq : f.queueing = 0)
    (hfl : f.flushing = 0) (hacc : ∀ p ∈ packets, p ≠ [] ∨ f.loaded = false)
    (hlast : packets.length = 1 ∨ ∃ l, packets.getLast? = some l ∧ l ≠ [])
    (hfit : (packets.map List.length).sum < 2 ^ 64)
    (hlen : outcomes.length = packets.length) (hok : ∀ o ∈ outcomes, o.failure = none) :
    (trace (run (Sys.init f external) (packets.map Event.write))
      (outcomes.map Event.execute)).countP (fun t => t.file.queueing == 0) = 1 ∧
    (run (run (Sys.init f external) (packets.map Event.write))
      (outcomes.map Event.execute)).handler = [Completion.WriteHandle] ∧
    (run (run (Sys.init f external) (packets.map Event.write))
      (outcomes.map Event.execute ++ [Event.deliver])).calls
      = [Callback.onFlush
          (!(run (run (Sys.init f external) (packets.map Event.write))
              (outcomes.map Event.execute)).file.loaded)] := by
  have hsub := run_writes packets (Sys.init f external)
    (by show f.queueing < 2 ^ 64; rw [hq]; norm_num) hacc
  have hqs : (run (Sys.init f external) (packets.map Event.write)).file.queueing
      = (packets.map List.length).sum := by
    rw [hsub]
    show (f.queueing + _) % 2 ^ 64 = _
    rw [hq, Nat.zero_add, Nat.mod_eq_of_lt hfit]
  have hb := burst_executes packets outcomes
    (run (Sys.init f external) (packets.map Event.write))
    (by rw [hsub]; rfl) hqs hfit (by rw [hsub]; exact hfl) (by rw [hsub]; exact hown)
    hlen hok hlast
  have hh : (run (run (Sys.init f external) (packets.map Event.write))
      (outcomes.map Event.execute)).handler = [Completion.WriteHandle] := by
    rw [hb.2.1, hsub]; rfl
  refine ⟨hb.1, hh, ?_⟩
  rw [run_append]
  have halive : 0 < (run (run (Sys.init f external) (packets.map Event.write))
      (outcomes.map Event.execute)).useCount := by
    unfold Sys.useCount
    rw [hb.2.2.2.1, hsub]
    show 0 < external + _ + _ + _
    omega
  show (step _ Event.deliver).calls = _
  rw [deliver_flush _ Completion.WriteHandle [] hh rfl hb.2.2.1 halive]
  show (run _ _).calls ++ _ = _
  rw [hb.2.2.2.2, hsub]
  rfl

/-- Witness of `C3_write_burst`: packets of 2, 0 and 1 bytes written to a file not yet
loaded. -/
theorem C3_write_burst_witness :
    (run (run (Sys.init Sample.file 1) ([[7, 7], [], [9]].map Event.write))
      ([Sample.success [] 0, Sample.success [] 0, Sample.success [] 0].map Event.execute
        ++ [Event.deliver])).calls
      = [Callback.onFlush
          (!(run (run (Sys.init Sample.file 1) ([[7, 7], [], [9]].map Event.write))
              ([Sample.success [] 0, Sample.success [] 0, Sample.success [] 0].map
                Event.execute)).file.loaded)] :=
  (C3_write_burst Sample.file 1 [[7, 7], [], [9]]
    [Sample.success [] 0, Sample.success [] 0, Sample.success [] 0]
    (by decide) rfl rfl (by decide) (Or.inr ⟨[9], rfl, by decide⟩) (by decide) rfl
    (by decide)).2.2

/-! ## C4: flush notifications never overlap -/

/-- C4: start from a resource with `_flushing = 0` and no flush completion queued, and let
`s` be the state after any sequence of atomic events (executions of write and erase tasks,
deliveries of completions, and any other event of the engine).  Then `_flushing` is 0 or
1, at most one flush completion is queued and not yet delivered, and the counter covers
it.  When the oldest runner of the handler is a flush completion and the resource is
still referenced, its delivery calls `onFlush` exactly once, brings `_flushing` back to 0
and leaves no flush completion queued. -/
theorem C4_flush_guard (s0 : Sys) (events : List Event) (s : Sys)
    (hf : s0.file.flushing = 0) (hh : pendingFlush s0.handler = 0)
    (hs : s = run s0 events) :
    (s.file.flushing = 0 ∨ s.file.flushing = 1) ∧
    pendingFlush s.handler ≤ 1 ∧
    pendingFlush s.handler ≤ s.file.flushing ∧
    ∀ c rest, s.handler = c :: rest → c.flush = true → 0 < s.useCount →
      (step s Event.deliver).calls = s.calls ++ [Callback.onFlush (!s.file.loaded)] ∧
      (step s Event.deliver).file.flushing = 0 ∧
      pendingFlush (step s Event.deliver).handler = 0 := by
  have h0 : s0.flushingOk := ⟨by rw [hf]; exact Nat.zero_le _, by rw [hh]; exact Nat.zero_le _⟩
  have hok : s.flushingOk := hs ▸ run_flushingOk events s0 h0
  obtain ⟨h1, h2⟩ := hok
  refine ⟨by omega, by omega, h2, ?_⟩
  intro c rest hc hflush halive
  have hp := h2
  rw [hc, pendingFlush_cons, if_pos hflush] at hp
  have hone : s.file.flushing = 1 := by omega
  rw [deliver_flush s c rest hc hflush hone halive]
  exact ⟨rfl, rfl, by show pendingFlush rest = 0; omega⟩

/-- Witness of `C4_flush_guard`: a write of one byte has executed, its flush completion
waits on the handler. -/
theorem C4_flush_guard_witness :
    (Sys.init Sample.file 1).file.flushing = 0 ∧
    pendingFlush (Sys.init Sample.file 1).handler = 0 ∧
    (step (run (Sys.init Sample.file 1) [Event.write [1], Event.execute (Sample.success [] 0)])
      Event.deliver).calls
      = (run (Sys.init Sample.file 1)
          [Event.write [1], Event.execute (Sample.success [] 0)]).calls
        ++ [Callback.onFlush
            (!(run (Sys.init Sample.file 1)
              [Event.write [1], Event.execute (Sample.success [] 0)]).file.loaded)] :=
  ⟨rfl, rfl,
    ((C4_flush_guard (Sys.init Sample.file 1)
      [Event.write [1], Event.execute (Sample.success [] 0)] _ rfl rfl rfl).2.2.2
        Completion.WriteHandle [] (by decide) rfl (by decide)).1⟩

/-! ## C5: a read nobody waits for -/

/-- C5: when the oldest task of the io track is a read and it holds the only strong
reference to the resource, executing it does nothing but remove the task: whatever the
requested size, the file state and the answer a blocking read would give, no call is made
outside the engine, no decode task and no completion is queued, and no callback is
invoked. -/
theorem C5_read_without_owner (s : Sys) (n : Nat) (rest : List Task) (o : Outcome)
    (hq : s.ioTrack = Task.ReadFile n :: rest) (hu : s.useCount = 1) :
    step s (Event.execute o) = { s with ioTrack := rest } ∧
    Action.run (Task.ReadFile n) s.file 0 o = Exec.start s.file 0 := by
  have hrun : Action.run (Task.ReadFile n) s.file 0 o = Exec.start s.file 0 := by
    simp [Action.run, Task.process, ReadFile.process, Exec.start, Exec.unique]
  refine ⟨?_, hrun⟩
  have h0 : Sys.useCount { s with ioTrack := rest } = 0 := by
    simp only [Sys.useCount, hq, List.length_cons] at hu ⊢
    omega
  simp only [step, hq, Sys.perform, h0, hrun, Exec.start, List.append_nil]

/-- Witness of `C5_read_without_owner`: an owner submits a read of four bytes and drops
its reference before the read executes. -/
theorem C5_read_without_owner_witness :
    (run (Sys.init Sample.file 1) [Event.read 4, Event.release]).ioTrack
      = Task.ReadFile 4 :: [] ∧
    (run (Sys.init Sample.file 1) [Event.read 4, Event.release]).useCount = 1 ∧
    step (run (Sys.init Sample.file 1) [Event.read 4, Event.release])
        (Event.execute (Sample.success [1, 2, 3, 4] 4))
      = { run (Sys.init Sample.file 1) [Event.read 4, Event.release] with ioTrack := [] } :=
  ⟨by decide, by decide,
    (C5_read_without_owner (run (Sys.init Sample.file 1) [Event.read 4, Event.release]) 4 []
      (Sample.success [1, 2, 3, 4] 4) (by decide) (by decide)).1⟩

/-! ## C6: a write is never skipped -/

/-- C6, as stated, fails in its last part: a write of one byte is refused by the system.
With the owner still holding the resource the task queues an error completion; when the
owner has dropped its reference the same task makes the same call of the blocking write
and queues nothing: what the absence of the owner suppresses here is the error
completion, so the flush completion is not the only thing it suppresses. -/
theorem C6_counterexample :
    (run (Sys.init Sample.file 1) [Event.write [1], Event.execute Sample.denied]).ops
      = [Op.write [1]] ∧
    (run (Sys.init Sample.file 1) [Event.write [1], Event.execute Sample.denied]).handler
      = [Completion.ErrorHandle (some Failure.permission)] ∧
    (run (Sys.init Sample.file 1)
      [Event.write [1], Event.release, Event.execute Sample.denied]).ops = [Op.write [1]] ∧
    (run (Sys.init Sample.file 1)
      [Event.write [1], Event.release, Event.execute Sample.denied]).handler = [] := by
  decide

/-- C6 (amended): executing a write task calls the blocking write exactly once, with the
whole packet, for every number of other references (zero included) and every answer of
the call, and the file is left in the same state as when the task holds the only
reference: the write itself is never suppressed.  What holding the only reference
suppresses is the completion, the handler staying empty: with another reference, a write
that succeeds queues the flush completion when `_queueing` has reached zero and no flush
is in flight, and a write that fails queues the error completion. -/
theorem C6_write_always (packet : Packet) (f : File) (others : Nat) (o : Outcome) :
    (Action.run (Task.WriteFile packet) f others o).ops = [Op.write packet] ∧
    (Action.run (Task.WriteFile packet) f others o).file
      = (Action.run (Task.WriteFile packet) f 0 o).file ∧
    (Action.run (Task.WriteFile packet) f 0 o).handler = [] ∧
    (o.failure = none → others ≠ 0 →
      (Action.run (Task.WriteFile packet) f others o).handler
        = if sub64 f.queueing packet.length = 0 ∧ f.flushing = 0
          then [Completion.WriteHandle] else []) ∧
    (o.failure ≠ none → others ≠ 0 →
      (Action.run (Task.WriteFile packet) f others o).handler
        = [Completion.ErrorHandle o.failure]) := by
  simp only [Action.run, Task.process, WriteFile.process, Exec.start, Action.handle,
    Exec.unique, File.apply]
  refine ⟨?_, ?_, ?_, ?_, ?_⟩
  · repeat' split
    all_goals simp_all
  · repeat' split
    all_goals simp_all
  · repeat' split
    all_goals simp_all
  · intro hok hne
    repeat' split
    all_goals simp_all
  · intro hfail hne
    repeat' split
    all_goals simp_all

/-! ## C7, C8, C9: the read window and the end flag -/

/-- C7: a read of `n` bytes on a resource that has another reference and no decoder,
whose blocking read succeeds and returns `r` bytes (the bytes it stored, at most the
length of the buffer), makes exactly one call outside the engine, the read, and queues
exactly one completion; the completion hands `onReaden` a buffer holding those `r` bytes
and the flag `r == size - readen`, size and offset being those before the read (the
difference is the `UInt64` one, the plain one when `readen <= size`).  At end-of-data
(`size = readen`) the buffer is empty and the flag is true, whatever `n`. -/
theorem C7_read_completion (f : File) (n others : Nat) (o : Outcome) (hown : 0 < others)
    (hdec : f.pDecoder = false) (hok : o.failure = none) :
    (Action.run (Task.ReadFile n) f others o).ops = [Op.read (ReadFile.window f n)] ∧
    (Action.run (Task.ReadFile n) f others o).handler =
      [Completion.ReadHandle (o.data.take (ReadFile.window f n))
        (decide ((o.data.take (ReadFile.window f n)).length = sub64 f.size f.readen))] ∧
    (∀ g : File,
      (Completion.ReadHandle (o.data.take (ReadFile.window f n))
        (decide ((o.data.take (ReadFile.window f n)).length = sub64 f.size f.readen))).run
          true g
      = (g, [Callback.onReaden (o.data.take (ReadFile.window f n))
          (decide ((o.data.take (ReadFile.window f n)).length = sub64 f.size f.readen))])) ∧
    (f.readen ≤ f.size → f.size < 2 ^ 64 → sub64 f.size f.readen = f.size - f.readen) ∧
    (f.size = f.readen →
      o.data.take (ReadFile.window f n) = [] ∧
      decide ((o.data.take (ReadFile.window f n)).length = sub64 f.size f.readen) = true) := by
  rw [run_readFile f n others o hown hdec hok]
  refine ⟨rfl, rfl, fun _ => rfl, fun h1 h2 => sub64_of_le h1 h2, ?_⟩
  intro heq
  have hw : ReadFile.window f n = 0 := by
    simp [ReadFile.window, heq, sub64_self]
  simp [hw, heq, sub64_self]

/-- Witness of `C7_read_completion`: four bytes asked of a file of ten bytes. -/
theorem C7_read_completion_witness :
    0 < 1 ∧ Sample.file.pDecoder = false ∧ (Sample.success [1, 2, 3, 4, 5] 4).failure = none ∧
    (Action.run (Task.ReadFile 4) Sample.file 1 (Sample.success [1, 2, 3, 4, 5] 4)).handler
      = [Completion.ReadHandle [1, 2, 3, 4] false] :=
  ⟨by decide, rfl, rfl,
    (C7_read_completion Sample.file 4 1 (Sample.success [1, 2, 3, 4, 5] 4)
      (by decide) rfl rfl).2.1⟩

/-- C8, as stated, fails: on a file of ten bytes with nothing read yet, a read of zero
bytes that succeeds delivers an empty buffer with the end flag false, and a read of zero
bytes that is refused delivers `onError` instead of an end-of-data signal. -/
theorem C8_counterexample :
    (run (Sys.init Sample.file 1)
      [Event.read 0, Event.execute (Sample.success [] 0), Event.deliver]).calls
      = [Callback.onReaden [] false] ∧
    (run (Sys.init Sample.file 1)
      [Event.read 0, Event.execute Sample.denied, Event.deliver]).calls
      = [Callback.onError (some Failure.permission)] := by
  decide

/-- C8 (amended): on a resource that has another reference and no decoder, a read with
requested byte count 0 whose blocking read succeeds asks the file for zero bytes and
queues exactly one completion; the completion carries zero bytes, and its end flag is
`size - readen == 0`: true at end-of-data (`size = readen`), false while bytes remain
(`readen < size`). -/
theorem C8_read_zero (f : File) (others : Nat) (o : Outcome) (hown : 0 < others)
    (hdec : f.pDecoder = false) (hok : o.failure = none) :
    (Action.run (Task.ReadFile 0) f others o).ops = [Op.read 0] ∧
    (Action.run (Task.ReadFile 0) f others o).handler =
      [Completion.ReadHandle [] (decide (sub64 f.size f.readen = 0))] ∧
    (f.size = f.readen → decide (sub64 f.size f.readen = 0) = true) ∧
    (f.readen < f.size → f.size < 2 ^ 64 → decide (sub64 f.size f.readen = 0) = false) := by
  have hw : ReadFile.window f 0 = 0 := by simp [ReadFile.window]
  rw [run_readFile f 0 others o hown hdec hok, hw]
  refine ⟨rfl, ?_, ?_, ?_⟩
  · simp [eq_comm]
  · intro heq; simp [heq, sub64_self]
  · intro h1 h2
    rw [sub64_of_le (le_of_lt h1) h2]
    simp; omega

/-- Witness of `C8_read_zero`: a read of zero bytes at the start of a file of ten bytes. -/
theorem C8_read_zero_witness :
    0 < 1 ∧ Sample.file.pDecoder = false ∧ (Sample.success [] 0).failure = none ∧
    (Action.run (Task.ReadFile 0) Sample.file 1 (Sample.success [] 0)).handler
      = [Completion.ReadHandle [] (decide (sub64 Sample.file.size Sample.file.readen = 0))] :=
  ⟨by decide, rfl, rfl,
    (C8_read_zero Sample.file 1 (Sample.success [] 0) (by decide) rfl rfl).2.1⟩

/-- C9, as stated, fails: two reads, of 4 and of 8 bytes, are queued on a file of ten
bytes with nothing read yet; when the second is submitted `size - readen` is 10, so the
window of the claim is 8; the first read executes and moves the offset to 4, and the
second then asks the file for 6 bytes only. -/
theorem C9_counterexample :
    ReadFile.window (run (Sys.init Sample.file 1) [Event.read 4, Event.read 8]).file 8 = 8 ∧
    (run (Sys.init Sample.file 1)
      [Event.read 4, Event.read 8,
       Event.execute (Sample.success [0, 1, 2, 3, 4, 5, 6, 7, 8, 9] 4),
       Event.execute (Sample.success [4, 5, 6, 7, 8, 9] 10)]).ops
      = [Op.read 4, Op.read 6] := by
  decide

/-- C9 (amended): the buffer a read allocates has length min(available, requested count),
where available = size - readen (the `UInt64` difference) with size and readen as the
resource has them when the read executes: size is the value the file holds, not
refreshed, and readen has moved with the reads executed before. -/
theorem C9_window_at_execution (s : Sys) (n : Nat) (rest : List Task) (o : Outcome)
    (hq : s.ioTrack = Task.ReadFile n :: rest) (hown : 0 < s.external) (hn : n < 2 ^ 32) :
    (step s (Event.execute o)).ops
      = s.ops ++ [Op.read (min (sub64 s.file.size s.file.readen) n)] := by
  have hne : Sys.useCount { s with ioTrack := rest } ≠ 0 := by
    simp only [Sys.useCount]; omega
  simp only [step, hq, Sys.perform, run_readFile_ops _ _ _ _ hne, window_of_lt _ hn]

/-- Witness of `C9_window_at_execution`: the second read of the counterexample. -/
theorem C9_window_at_execution_witness :
    (run (Sys.init Sample.file 1)
        [Event.read 4, Event.read 8,
         Event.execute (Sample.success [0, 1, 2, 3, 4, 5, 6, 7, 8, 9] 4)]).ioTrack
      = Task.ReadFile 8 :: [] ∧
    (step (run (Sys.init Sample.file 1)
        [Event.read 4, Event.read 8,
         Event.execute (Sample.success [0, 1, 2, 3, 4, 5, 6, 7, 8, 9] 4)])
      (Event.execute (Sample.success [4, 5, 6, 7, 8, 9] 10))).ops
      = [Op.read 4] ++ [Op.read (min (sub64 10 4) 8)] :=
  ⟨by decide,
    C9_window_at_execution
      (run (Sys.init Sample.file 1)
        [Event.read 4, Event.read 8,
         Event.execute (Sample.success [0, 1, 2, 3, 4, 5, 6, 7, 8, 9] 4)])
      8 [] (Sample.success [4, 5, 6, 7, 8, 9] 10) (by decide) (by decide) (by decide)⟩

/-! ## C10: the load task -/

/-- C10, as stated, fails twice.  In `MODE_DELETE` a load refused for a reason other than
an absent file (permission denied) still ends without error: the failure is cleared and
nothing is queued.  And in another mode a failed load of a task that holds the only
reference makes the task fail but queues no error completion. -/
theorem C10_counterexample :
    (Task.LoadFile.process (Exec.start { Sample.file with mode := Mode.MODE_DELETE } 1)
      Sample.denied).1 = true ∧
    (Action.run Task.LoadFile { Sample.file with mode := Mode.MODE_DELETE } 1
      Sample.denied).ex = none ∧
    (Action.run Task.LoadFile { Sample.file with mode := Mode.MODE_DELETE } 1
      Sample.denied).handler = [] ∧
    (Task.LoadFile.process (Exec.start Sample.file 0) Sample.missing).1 = false ∧
    (Action.run Task.LoadFile Sample.file 0 Sample.missing).handler = [] := by
  decide

/-- C10 (amended): the load task calls `load` once; it ends without error exactly when the
load succeeds or the mode is DELETE: in DELETE mode every load failure, whatever its
cause, is cleared and no error completion is queued.  Every load failure in another mode
makes the task fail, and leads to one error completion carrying the failure when another
strong reference to the resource exists, to none when the task holds the only one. -/
theorem C10_load_task (f : File) (others : Nat) (o : Outcome) :
    (Action.run Task.LoadFile f others o).ops = [Op.load] ∧
    ((Task.LoadFile.process (Exec.start f others) o).1 = true
      ↔ (o.failure = none ∨ f.mode = Mode.MODE_DELETE)) ∧
    ((o.failure = none ∨ f.mode = Mode.MODE_DELETE) →
      (Action.run Task.LoadFile f others o).ex = none ∧
      (Action.run Task.LoadFile f others o).handler = []) ∧
    (o.failure ≠ none → f.mode ≠ Mode.MODE_DELETE →
      (Action.run Task.LoadFile f others o).handler
        = if others = 0 then [] else [Completion.ErrorHandle o.failure]) := by
  simp only [Action.run, Task.process, Action.process, Exec.start, Action.handle,
    Exec.unique, File.apply]
  refine ⟨?_, ?_, ?_, ?_⟩
  · repeat' split
    all_goals simp_all
  · repeat' split
    all_goals simp_all
  · intro h
    repeat' split
    all_goals simp_all
  · intro h1 h2
    repeat' split
    all_goals simp_all

/-! ## C11: the decode task -/

/-- C11: a decode task on a resource that has another reference hands its buffer and its
end flag to the decoder, once.  With `N` the value the decoder returns, a new read task
is submitted on the io track if and only if `N > 0` and the end flag is false, and it
requests exactly `N` bytes; a completion is queued if and only if the decoder left a
buffer pending, it carries that buffer with the end flag unchanged, and its delivery
calls `onReaden` with both. -/
theorem C11_decode_task (b : Buffer) (e : Bool) (f : File) (others : Nat) (o : Outcome)
    (hown : 0 < others) :
    (Action.run (Task.Decoding b e) f others o).ops = [Op.decode b e] ∧
    (Action.run (Task.Decoding b e) f others o).ioTrack
      = (if 0 < o.decoded ∧ e = false then [Task.ReadFile o.decoded] else []) ∧
    (Action.run (Task.Decoding b e) f others o).handler
      = (match o.pBuffer with
         | some pending => [Completion.ReadHandle pending e]
         | none => []) ∧
    (∀ pending g, (Completion.ReadHandle pending e).run true g
      = (g, [Callback.onReaden pending e])) := by
  rw [run_decoding b e f others o hown]
  refine ⟨rfl, ?_, rfl, fun _ _ => rfl⟩
  simp only [Nat.pos_iff_ne_zero]

/-- Witness of `C11_decode_task`: the decoder leaves a buffer of two bytes pending and
asks for four more bytes. -/
theorem C11_decode_task_witness :
    0 < 1 ∧
    (Action.run (Task.Decoding [1, 2, 3] false) Sample.file 1
      { Sample.success [] 0 with decoded := 4, pBuffer := some [1, 2] }).ioTrack
      = (if 0 < 4 ∧ false = false then [Task.ReadFile 4] else []) :=
  ⟨by decide,
    (C11_decode_task [1, 2, 3] false Sample.file 1
      { Sample.success [] 0 with decoded := 4, pBuffer := some [1, 2] } (by decide)).2.1⟩

/-! ## C12: the check made when the watch loop exits -/

/-- C12, as stated, fails in both directions.  A watcher is registered and a stop is
requested before the loop merges it (before the first iteration, or during the wait of an
iteration): it is still in the pending set and still held outside `IOFile` when the loop
exits, and `IOFile::run` returns true without any exception.  And a watcher registered
twice and merged is held by nobody outside `IOFile` when the loop exits, yet neither of
its two entries is unique, and `IOFile::run` returns false with the exception. -/
theorem C12_counterexample :
    (IOFile.run (fun _ => 1) [] (IOFile.watch Watching.init 7)).2.pending = [7] ∧
    (IOFile.run (fun _ => 1) [] (IOFile.watch Watching.init 7)).1 = (true, none) ∧
    (IOFile.run (fun w => if w = 7 then 1 else 0)
      [{ registered := [1], holders := fun _ => 1, result := fun _ => 0, late := [7],
         wakeUp := true }] Watching.init).2.pending = [7] ∧
    (IOFile.run (fun w => if w = 7 then 1 else 0)
      [{ registered := [1], holders := fun _ => 1, result := fun _ => 0, late := [7],
         wakeUp := true }] Watching.init).1 = (true, none) ∧
    (IOFile.run (fun _ => 0)
      [{ registered := [], holders := fun _ => 0, result := fun _ => 0, late := [],
         wakeUp := true }] (IOFile.watch (IOFile.watch Watching.init 5) 5)).2.watchers
      = [5, 5] ∧
    (IOFile.run (fun _ => 0)
      [{ registered := [], holders := fun _ => 0, result := fun _ => 0, late := [],
         wakeUp := true }] (IOFile.watch (IOFile.watch Watching.init 5) 5)).1
      = (false, some Failure.intern) := by
  decide

/-- C12 (amended): however the watch loop exits (stop requested, active set found empty,
or wait interrupted), `IOFile::run` returns false, with an `Ex::Intern` exception, if
and only if some entry of the active set (the list `watchers` merged by the iterations
made so far) is not unique at that moment, that is, its watcher is still held outside
`IOFile` or is entered more than once in the active and pending lists.  A watcher that is
only in the pending set is not examined.  It returns true, without exception, exactly
when every watcher of the active set has no outside holder and is entered once.  When
the entries of the two lists are distinct watchers, the error is reported if and only if
a watcher of the active set is still held outside `IOFile`. -/
theorem C12_exit_check (atExit : Nat → Nat) (rounds : List Round) (st : Watching) :
    ((IOFile.run atExit rounds st).1.1 = false
      ↔ ∃ w ∈ (IOFile.run atExit rounds st).2.watchers,
          atExit w ≠ 0 ∨
          2 ≤ ((IOFile.run atExit rounds st).2.watchers
                ++ (IOFile.run atExit rounds st).2.pending).count w) ∧
    ((IOFile.run atExit rounds st).1.1 = true
      ↔ ∀ w ∈ (IOFile.run atExit rounds st).2.watchers,
          atExit w = 0 ∧
          ((IOFile.run atExit rounds st).2.watchers
            ++ (IOFile.run atExit rounds st).2.pending).count w = 1) ∧
    ((IOFile.run atExit rounds st).1.1 = false
      ↔ (IOFile.run atExit rounds st).1.2 = some Failure.intern) ∧
    ((IOFile.run atExit rounds st).1.1 = true
      ↔ (IOFile.run atExit rounds st).1.2 = none) ∧
    (((IOFile.run atExit rounds st).2.watchers
        ++ (IOFile.run atExit rounds st).2.pending).Nodup →
      ((IOFile.run atExit rounds st).1.1 = false
        ↔ ∃ w ∈ (IOFile.run atExit rounds st).2.watchers, atExit w ≠ 0)) := by
  have hc := run_check atExit rounds st
  have hf := check_false_iff_held atExit (IOFile.run atExit rounds st).2
  have hx := check_exception atExit (IOFile.run atExit rounds st).2
  rw [← hc] at hf hx
  refine ⟨hf, ?_, ?_, ?_, ?_⟩
  · constructor
    · intro ht w hw
      have hpos : 0 < ((IOFile.run atExit rounds st).2.watchers
          ++ (IOFile.run atExit rounds st).2.pending).count w :=
        List.count_pos_iff.mpr (List.mem_append_left _ hw)
      have hnot : ¬ (atExit w ≠ 0 ∨ 2 ≤ ((IOFile.run atExit rounds st).2.watchers
          ++ (IOFile.run atExit rounds st).2.pending).count w) := by
        intro h
        have := hf.mpr ⟨w, hw, h⟩
        rw [ht] at this
        exact absurd this (by decide)
      omega
    · intro hall
      cases hb : (IOFile.run atExit rounds st).1.1 with
      | true => rfl
      | false =>
        obtain ⟨w, hw, h⟩ := hf.mp hb
        have := hall w hw
        omega
  · rw [hx]
    cases (IOFile.run atExit rounds st).1.1 <;> simp
  · rw [hx]
    cases (IOFile.run atExit rounds st).1.1 <;> simp
  · intro hnd
    rw [hf]
    constructor
    · rintro ⟨w, hw, h⟩
      have h1 := List.count_eq_one_of_mem hnd (List.mem_append_left _ hw)
      exact ⟨w, hw, by omega⟩
    · rintro ⟨w, hw, h⟩
      exact ⟨w, hw, Or.inl h⟩

/-! ## C13: one iteration of the watch loop -/

/-- C13, as stated, fails: one watcher is registered twice before the first iteration and
nobody holds it outside `IOFile`.  Neither of its two entries is unique, so the iteration
polls the watcher twice and removes nothing, although the watcher has no external
holder. -/
theorem C13_counterexample :
    (IOFile.iteration (fun _ => 0) (fun _ => 0)
      (IOFile.watch (IOFile.watch Watching.init 5) 5)).polled = [5, 5] ∧
    (IOFile.iteration (fun _ => 0) (fun _ => 0)
      (IOFile.watch (IOFile.watch Watching.init 5) 5)).watchers = [5, 5] ∧
    (IOFile.iteration (fun _ => 0) (fun _ => 0)
      (IOFile.watch (IOFile.watch Watching.init 5) 5)).pending = [] := by
  decide

/-- C13 (amended): for every active list `A` and pending list `P` with `A ++ P` non-empty,
one iteration of the watch loop empties the pending list and polls exactly the entries of
`A ++ P` that are not unique, that is, whose watcher is held outside `IOFile` or is
entered more than once in `A ++ P`, each such entry once and in that order, whatever the
polls return (a negative result is only logged); these entries form the new active list,
the unique entries are removed without being polled.  When the entries of `A ++ P` are
distinct watchers, the polled ones are exactly the watchers held outside `IOFile`; in
particular two distinct watchers registered before the first iteration and still held are
both polled in that iteration. -/
theorem C13_iteration (holders : Nat → Nat) (result : Nat → Int) (st : Watching)
    (hne : st.watchers ++ st.pending ≠ []) :
    (IOFile.iteration holders result st).pending = [] ∧
    (IOFile.iteration holders result st).polled
      = st.polled ++ (st.watchers ++ st.pending).filter
          (fun w => holders w + (st.watchers ++ st.pending).count w != 1) ∧
    (IOFile.iteration holders result st).watchers
      = (st.watchers ++ st.pending).filter
          (fun w => holders w + (st.watchers ++ st.pending).count w != 1) ∧
    (IOFile.iteration holders result st).stopped = st.stopped ∧
    ((st.watchers ++ st.pending).Nodup →
      (IOFile.iteration holders result st).polled
        = st.polled ++ (st.watchers ++ st.pending).filter (fun w => holders w != 0) ∧
      (IOFile.iteration holders result st).watchers
        = (st.watchers ++ st.pending).filter (fun w => holders w != 0)) ∧
    (∀ a b, a ≠ b → holders a ≠ 0 → holders b ≠ 0 →
      (IOFile.iteration holders result
        (IOFile.watch (IOFile.watch Watching.init a) b)).polled = [a, b]) := by
  rw [iteration_entries holders result st hne]
  refine ⟨rfl, rfl, rfl, rfl, ?_, ?_⟩
  · intro hnd
    simp only [filter_held_of_nodup holders _ hnd, and_self]
  · intro a b hab ha hb
    rw [iteration_nodup holders result _ (by simp [IOFile.watch, Watching.init])
      (by simp [IOFile.watch, Watching.init, hab])]
    simp [IOFile.watch, Watching.init, ha, hb]

/-- Witness of `C13_iteration`: one active watcher and four pending entries, one watcher
entered twice and held by nobody, another dropped by its owner, every poll failing. -/
theorem C13_iteration_witness :
    ([1] ++ [2, 3, 2, 4] : List Nat) ≠ [] ∧
    (IOFile.iteration (fun w => if w = 1 then 1 else 0) (fun _ => -1)
      { Watching.init with watchers := [1], pending := [2, 3, 2, 4] }).polled = [1, 2, 2] :=
  ⟨by decide,
    ((C13_iteration (fun w => if w = 1 then 1 else 0) (fun _ => -1)
      { Watching.init with watchers := [1], pending := [2, 3, 2, 4] } (by decide)).2.1).trans
      (by decide)⟩

/-! ## C14: load then erase of an absent file in DELETE mode -/

/-- C14: a resource in DELETE mode, not loaded, `_flushing = 0`, nothing queued, is held
by an owner; the erase succeeds and leaves the resource not loaded, and the load answers
`o1`, whatever it is (in particular a failure because the path does not exist, the
resource staying not loaded).  Load followed by erase, the erase being submitted before or
after the load executes, makes exactly the calls `load` and `erase`, and the only
callback ever invoked is `onFlush(true)`, once, by the erase completion: `onError` is
never called and nothing is left on the handler. -/
theorem C14_delete_absent (f : File) (external : Nat) (o1 o2 : Outcome)
    (hmode : f.mode = Mode.MODE_DELETE) (hl : f.loaded = false) (hfl : f.flushing = 0)
    (hown : 0 < external) (h2 : o2.failure = none) (h2l : o2.loaded = false) :
    (run (Sys.init f external)
      [Event.load, Event.erase, Event.execute o1, Event.execute o2]).handler
      = [Completion.EraseHandle] ∧
    (run (Sys.init f external)
      [Event.load, Event.erase, Event.execute o1, Event.execute o2]).calls = [] ∧
    (run (Sys.init f external)
      [Event.load, Event.erase, Event.execute o1, Event.execute o2, Event.deliver]).calls
      = [Callback.onFlush true] ∧
    (run (Sys.init f external)
      [Event.load, Event.erase, Event.execute o1, Event.execute o2, Event.deliver]).handler
      = [] ∧
    (run (Sys.init f external)
      [Event.load, Event.erase, Event.execute o1, Event.execute o2, Event.deliver]).ops
      = [Op.load, Op.erase] ∧
    run (Sys.init f external)
      [Event.load, Event.execute o1, Event.erase, Event.execute o2, Event.deliver]
      = run (Sys.init f external)
          [Event.load, Event.erase, Event.execute o1, Event.execute o2, Event.deliver] := by
  have hs1 : step (Sys.init f external) Event.load
      = { Sys.init f external with ioTrack := [Task.LoadFile] } := by
    simp [step, IOFile.load, Sys.init, hl]
  have hs2 : step { Sys.init f external with ioTrack := [Task.LoadFile] } Event.erase
      = { Sys.init f external with ioTrack := [Task.LoadFile, Task.EraseFile] } := rfl
  have hs3 : step { Sys.init f external with ioTrack := [Task.LoadFile, Task.EraseFile] }
        (Event.execute o1)
      = { Sys.init f external with file := f.apply o1, ioTrack := [Task.EraseFile],
                                   ops := [Op.load] } :=
    step_loadFile_delete _ [Task.EraseFile] o1 rfl hmode
  have hs2b : step { Sys.init f external with ioTrack := [Task.LoadFile] } (Event.execute o1)
      = { Sys.init f external with file := f.apply o1, ops := [Op.load] } :=
    step_loadFile_delete _ [] o1 rfl hmode
  have hs3b : step { Sys.init f external with file := f.apply o1, ops := [Op.load] }
        Event.erase
      = { Sys.init f external with file := f.apply o1, ioTrack := [Task.EraseFile],
                                   ops := [Op.load] } := rfl
  have hs4 : step
        { Sys.init f external with
            file := f.apply o1, ioTrack := [Task.EraseFile], ops := [Op.load] }
        (Event.execute o2)
      = { Sys.init f external with
            file := { f.apply o1 with flushing := 1, loaded := o2.loaded, size := o2.size,
                                      readen := o2.readen },
            handler := [Completion.EraseHandle], ops := [Op.load, Op.erase] } :=
    step_eraseFile_ok _ [] o2 rfl h2 hfl hown
  have hs5 : step
        { Sys.init f external with
            file := { f.apply o1 with flushing := 1, loaded := o2.loaded, size := o2.size,
                                      readen := o2.readen },
            handler := [Completion.EraseHandle], ops := [Op.load, Op.erase] }
        Event.deliver
      = { Sys.init f external with
            file := { f.apply o1 with flushing := 0, loaded := o2.loaded, size := o2.size,
                                      readen := o2.readen },
            calls := [Callback.onFlush true], ops := [Op.load, Op.erase] } := by
    rw [deliver_flush _ Completion.EraseHandle [] rfl rfl rfl
      (by show 0 < external + _ + _ + _; omega)]
    simp [Sys.init, h2l]
  simp only [run_cons, run_nil, hs1, hs2, hs3, hs2b, hs3b, hs4, hs5]
  refine ⟨?_, ?_, ?_, ?_, ?_, ?_⟩ <;> trivial

/-- Witness of `C14_delete_absent`: the path does not exist, the load reports the file
absent and the erase succeeds on the absent file. -/
theorem C14_delete_absent_witness :
    Sample.missing.failure = some Failure.absent ∧
    (run (Sys.init { Sample.file with mode := Mode.MODE_DELETE } 1)
      [Event.load, Event.erase, Event.execute Sample.missing,
       Event.execute { Sample.missing with failure := none }, Event.deliver]).calls
      = [Callback.onFlush true] :=
  ⟨rfl,
    (C14_delete_absent { Sample.file with mode := Mode.MODE_DELETE } 1 Sample.missing
      { Sample.missing with failure := none } rfl rfl rfl (by decide) rfl rfl).2.2.1⟩

/-! ## C15: an empty packet written to a resource not yet loaded -/

/-- C15: a resource not yet loaded (in WRITE mode or any other, the engine does not look
at the mode here), `_queueing = 0` and `_flushing = 0`,
nothing queued, is held by an owner.  Writing an empty packet submits exactly one write
task and leaves `_queueing` at 0; its execution, the zero-length write succeeding and
loading the resource, makes exactly one call, a write of zero bytes, leaves `_queueing`
at 0 and queues one flush completion, whose delivery is the only callback invoked: one
call of `onFlush`, with argument false. -/
theorem C15_empty_write (f : File) (external : Nat) (o : Outcome)
    (hl : f.loaded = false) (hq : f.queueing = 0)
    (hfl : f.flushing = 0) (hown : 0 < external) (hok : o.failure = none)
    (hld : o.loaded = true) :
    (run (Sys.init f external) [Event.write []]).ioTrack = [Task.WriteFile []] ∧
    (run (Sys.init f external) [Event.write []]).file.queueing = 0 ∧
    (run (Sys.init f external) [Event.write [], Event.execute o]).ops = [Op.write []] ∧
    (run (Sys.init f external) [Event.write [], Event.execute o]).file.queueing = 0 ∧
    (run (Sys.init f external) [Event.write [], Event.execute o]).file.loaded = true ∧
    (run (Sys.init f external) [Event.write [], Event.execute o]).handler
      = [Completion.WriteHandle] ∧
    (run (Sys.init f external) [Event.write [], Event.execute o, Event.deliver]).calls
      = [Callback.onFlush false] ∧
    (run (Sys.init f external) [Event.write [], Event.execute o, Event.deliver]).handler
      = [] := by
  have e0 : add64 0 0 = 0 := by decide
  have hs1 : step (Sys.init f external) (Event.write [])
      = { Sys.init f external with
            file := { f with queueing := 0 }, ioTrack := [Task.WriteFile []] } := by
    simp [step, IOFile.write, Sys.init, hl, hq, e0]
  have hs2 : step
        { Sys.init f external with
            file := { f with queueing := 0 }, ioTrack := [Task.WriteFile []] }
        (Event.execute o)
      = { Sys.init f external with
            file := { f with queueing := 0, flushing := 1, loaded := o.loaded,
                             size := o.size, readen := o.readen },
            handler := [Completion.WriteHandle], ops := [Op.write []] } :=
    step_write_last _ [] [] o rfl hok (sub64_self 0) hfl hown
  have hs3 : step
        { Sys.init f external with
            file := { f with queueing := 0, flushing := 1, loaded := o.loaded,
                             size := o.size, readen := o.readen },
            handler := [Completion.WriteHandle], ops := [Op.write []] }
        Event.deliver
      = { Sys.init f external with
            file := { f with queueing := 0, flushing := 0, loaded := o.loaded,
                             size := o.size, readen := o.readen },
            calls := [Callback.onFlush false], ops := [Op.write []] } := by
    rw [deliver_flush _ Completion.WriteHandle [] rfl rfl rfl
      (by show 0 < external + _ + _ + _; omega)]
    simp [Sys.init, hld]
  simp only [run_cons, run_nil, hs1, hs2, hs3]
  refine ⟨?_, ?_, ?_, ?_, ?_, ?_, ?_, ?_⟩ <;> trivial

/-- Witness of `C15_empty_write`: a file in WRITE mode, the zero-length write loads it. -/
theorem C15_empty_write_witness :
    ({ Sample.file with mode := Mode.MODE_WRITE } : File).loaded = false ∧
    (Sample.success [] 0).loaded = true ∧
    (run (Sys.init { Sample.file with mode := Mode.MODE_WRITE } 1)
      [Event.write [], Event.execute (Sample.success [] 0), Event.deliver]).calls
      = [Callback.onFlush false] :=
  ⟨rfl, rfl,
    (C15_empty_write { Sample.file with mode := Mode.MODE_WRITE } 1 (Sample.success [] 0)
      rfl rfl rfl (by decide) rfl rfl).2.2.2.2.2.2.1⟩

/-! ## C16: the sizes along the read, decode, read chain -/

/-- C16: one link of the chain.  A read of `n` bytes (the initial request, or the hint of
the previous decode) executes on a resource that has a decoder and an owner; the blocking
read succeeds and fills its window.  The buffer queued for the decoder then has at most
`n` bytes, and exactly `n` bytes when its end flag is false; the decode task that follows
hands the decoder that very buffer with that flag, and the next read it submits, if any,
requests exactly the hint the decoder returns. -/
theorem C16_chain_link (s : Sys) (n : Nat) (rest : List Task) (o d : Outcome)
    (hio : s.ioTrack = Task.ReadFile n :: rest) (hdt : s.decodingTrack = [])
    (hdec : s.file.pDecoder = true) (hown : 0 < s.external) (hn : n < 2 ^ 32)
    (hok : o.failure = none) (hfill : ReadFile.window s.file n ≤ o.data.length) :
    (step s (Event.execute o)).decodingTrack
      = [Task.Decoding (o.data.take (ReadFile.window s.file n))
          (decide ((o.data.take (ReadFile.window s.file n)).length
            = sub64 s.file.size s.file.readen))] ∧
    (o.data.take (ReadFile.window s.file n)).length ≤ n ∧
    (decide ((o.data.take (ReadFile.window s.file n)).length
        = sub64 s.file.size s.file.readen) = false →
      (o.data.take (ReadFile.window s.file n)).length = n) ∧
    (run s [Event.execute o, Event.decode d]).ops
      = s.ops ++ [Op.read (ReadFile.window s.file n),
          Op.decode (o.data.take (ReadFile.window s.file n))
            (decide ((o.data.take (ReadFile.window s.file n)).length
              = sub64 s.file.size s.file.readen))] ∧
    (run s [Event.execute o, Event.decode d]).ioTrack
      = rest ++ (if 0 < d.decoded ∧
          decide ((o.data.take (ReadFile.window s.file n)).length
            = sub64 s.file.size s.file.readen) = false
        then [Task.ReadFile d.decoded] else []) := by
  have hlen : (o.data.take (ReadFile.window s.file n)).length = ReadFile.window s.file n := by
    rw [List.length_take]; exact Nat.min_eq_left hfill
  have hw := window_of_lt s.file hn
  have h1 := step_readFile_decoder s n rest o hio hdec hown hok
  have h2 := step_decoding (step s (Event.execute o))
    (o.data.take (ReadFile.window s.file n))
    (decide ((o.data.take (ReadFile.window s.file n)).length
      = sub64 s.file.size s.file.readen)) [] d
    (by rw [h1]; simp only [hdt, List.nil_append]) (by rw [h1]; exact hown)
  refine ⟨by rw [h1]; simp only [hdt, List.nil_append], ?_, ?_, ?_, ?_⟩
  · rw [hlen, hw]; exact Nat.min_le_right _ _
  · intro he
    rw [hlen, hw] at he ⊢
    simp only [decide_eq_false_iff_not] at he
    omega
  · show (step (step s (Event.execute o)) (Event.decode d)).ops = _
    rw [h2, h1]
    simp only [List.append_assoc, List.singleton_append]
  · show (step (step s (Event.execute o)) (Event.decode d)).ioTrack = _
    rw [h2, h1]
    simp only [Nat.pos_iff_ne_zero]

/-- Witness of `C16_chain_link`: a read of four bytes on a file of ten bytes with a
decoder, the decoder asking for four more bytes. -/
theorem C16_chain_link_witness :
    (run (Sys.init { Sample.file with pDecoder := true } 1) [Event.read 4]).ioTrack
      = Task.ReadFile 4 :: [] ∧
    (run (run (Sys.init { Sample.file with pDecoder := true } 1) [Event.read 4])
      [Event.execute (Sample.success [0, 1, 2, 3, 4, 5, 6, 7, 8, 9] 4),
       Event.decode { Sample.success [] 4 with decoded := 4 }]).ioTrack
      = [] ++ (if 0 < 4 ∧
          decide ((List.take
            (ReadFile.window
              (run (Sys.init { Sample.file with pDecoder := true } 1) [Event.read 4]).file 4)
            [0, 1, 2, 3, 4, 5, 6, 7, 8, 9]).length
            = sub64 (run (Sys.init { Sample.file with pDecoder := true } 1)
                      [Event.read 4]).file.size
                (run (Sys.init { Sample.file with pDecoder := true } 1)
                      [Event.read 4]).file.readen) = false
        then [Task.ReadFile 4] else []) :=
  ⟨by decide,
    (C16_chain_link (run (Sys.init { Sample.file with pDecoder := true } 1) [Event.read 4])
      4 [] (Sample.success [0, 1, 2, 3, 4, 5, 6, 7, 8, 9] 4)
      { Sample.success [] 4 with decoded := 4 } (by decide) (by decide) (by decide)
      (by decide) (by decide) (by decide) (by decide)).2.2.2.2⟩

/-! ## C17: a write that fails -/

/-- C17, as stated, fails: a packet of three bytes is submitted, `_queueing` is 3; its
blocking write is refused, and `_queueing` is 0 afterwards, not 3: the counter is
decreased before the write, whatever its result.  And when the owner has dropped its
reference before the execution, the failure is reported to nobody. -/
theorem C17_counterexample :
    (run (Sys.init Sample.file 1) [Event.write [1, 2, 3]]).file.queueing = 3 ∧
    (run (Sys.init Sample.file 1)
      [Event.write [1, 2, 3], Event.execute Sample.denied]).file.queueing = 0 ∧
    (run (Sys.init Sample.file 1)
      [Event.write [1, 2, 3], Event.release, Event.execute Sample.denied]).handler = [] ∧
    (run (Sys.init Sample.file 1)
      [Event.write [1, 2, 3], Event.release, Event.execute Sample.denied,
       Event.deliver]).calls = [] := by
  decide

/-- C17 (amended): the execution of a write decreases `_queueing` by the size of its
packet before the blocking write is called; when the blocking write fails, `_queueing`
has therefore lost exactly that size (the `UInt64` difference, the plain one when the
counter covers the size), `_flushing` is unchanged, no flush notification is queued, and
the failure is reported through one error completion when another strong reference to
the resource exists, through none when the task holds the only reference. -/
theorem C17_failed_write (p : Packet) (f : File) (others : Nat) (o : Outcome)
    (hfail : o.failure ≠ none) :
    (Action.run (Task.WriteFile p) f others o).ops = [Op.write p] ∧
    (Action.run (Task.WriteFile p) f others o).file.queueing = sub64 f.queueing p.length ∧
    (p.length ≤ f.queueing → f.queueing < 2 ^ 64 →
      (Action.run (Task.WriteFile p) f others o).file.queueing = f.queueing - p.length) ∧
    (Action.run (Task.WriteFile p) f others o).file.flushing = f.flushing ∧
    pendingFlush (Action.run (Task.WriteFile p) f others o).handler = 0 ∧
    (Action.run (Task.WriteFile p) f others o).handler
      = (if others = 0 then [] else [Completion.ErrorHandle o.failure]) := by
  rw [run_writeFile_failed p f others o hfail]
  refine ⟨by rw [handle_ops], by rw [handle_file], ?_, by rw [handle_file], ?_, ?_⟩
  · intro h1 h2
    rw [handle_file]
    exact sub64_of_le h1 h2
  · rw [handle_pendingFlush_of_not_flush (Completion.ErrorHandle o.failure) _ rfl]
    rfl
  · rw [handle_handler]
    by_cases h : others = 0 <;> simp [Exec.unique, h]

/-- Witness of `C17_failed_write`: a refused write of three bytes, submitted by an owner
that still holds the resource. -/
theorem C17_failed_write_witness :
    Sample.denied.failure ≠ none ∧
    (Action.run (Task.WriteFile [1, 2, 3])
      (run (Sys.init Sample.file 1) [Event.write [1, 2, 3]]).file 1 Sample.denied).file.queueing
      = sub64 (run (Sys.init Sample.file 1) [Event.write [1, 2, 3]]).file.queueing 3 :=
  ⟨by decide,
    (C17_failed_write [1, 2, 3] (run (Sys.init Sample.file 1) [Event.write [1, 2, 3]]).file 1
      Sample.denied (by decide)).2.1⟩

/-! ## C18: a stream is never left starting but not running -/

/-- C18: after any sequence of calls of `start`, `finalizeStart` and `stop` on a
constructed `MediaStream`, whatever the hooks `starting` and `onStart` return (the hooks
making no call on the stream themselves), `_starting` implies `_running`, and a call of
`stop` made then leaves both flags false. -/
theorem C18_starting_implies_running (isTarget : Bool) (l : List MediaStream.Call) :
    (((MediaStream.constructed isTarget).calls l).starting = true →
      ((MediaStream.constructed isTarget).calls l).running = true) ∧
    ((MediaStream.constructed isTarget).calls (l ++ [MediaStream.Call.stop])).starting = false ∧
    ((MediaStream.constructed isTarget).calls (l ++ [MediaStream.Call.stop])).running = false := by
  refine ⟨calls_flags l _ (fun h => absurd h (by simp [MediaStream.constructed])), ?_, ?_⟩
  · simp only [MediaStream.calls, List.foldl_append, List.foldl_cons, List.foldl_nil,
      MediaStream.call]
    exact (stop_flags _).1
  · simp only [MediaStream.calls, List.foldl_append, List.foldl_cons, List.foldl_nil,
      MediaStream.call]
    exact (stop_flags _).2

/-! ## C19: the length `MediaStream::New` passes to `String::Split` -/

/-- C19 at the failing input: for the trimmed line `UDP/TS k=v` the type/format word
`UDP/TS` has 6 characters and the first blank lies 6 characters after the start of the
line, but the length passed to `String::Split` is `line - params` converted to an
unsigned value, that is `2^64 - 6`, not 6. -/
theorem C19_split_size_at_failing_input :
    (MediaStream.word "UDP/TS k=v".toList).length = 6 ∧
    strpbrk MediaStream.blanks "UDP/TS k=v".toList = some 6 ∧
    MediaStream.splitSize "UDP/TS k=v".toList = 2 ^ 64 - 6 ∧
    MediaStream.splitSize "UDP/TS k=v".toList ≠ 6 := by
  decide

end Mona
